import Mathlib

/-!
Verification development for `scripts/merge_migrations.py`.

The script merges a base schema document and a security-overlay document.
We shallowly embed its string processing over `List Char` (Python `str` is a
sequence of code points), mirroring the Python primitives it uses:
`str.split('\n')`, `'\n'.join`, `str.strip`, `str.startswith`, `in`
(substring test), `str.find`, slicing with possibly negative indices,
`str.replace`, and `re.sub(r'\n{4,}', '\n\n\n', _)`.
-/

set_option maxRecDepth 40000

/-- A Python string: a sequence of characters (code points). -/
abbrev Str := List Char

/-- The apostrophe character, used inside some marker literals. -/
def apos : Char := Char.ofNat 39

/-- Operation `leadsWith pat s` holds when `pat` occurs at the very start of `s`
(Python `s.startswith(pat)`). -/
def leadsWith : Str → Str → Bool
  | [], _ => true
  | _ :: _, [] => false
  | p :: ps, c :: cs => decide (p = c) && leadsWith ps cs

/-- Operation `containsSub pat s` holds when `pat` occurs somewhere in `s`
(Python `pat in s`). -/
def containsSub (pat : Str) : Str → Bool
  | [] => leadsWith pat []
  | c :: rest => leadsWith pat (c :: rest) || containsSub pat rest

/-- Index of the first occurrence of `pat` in `s`, if any
(the searching core of Python `s.find(pat)`). -/
def findIdx (pat : Str) : Str → Option Nat
  | [] => if leadsWith pat [] = true then some 0 else none
  | c :: rest =>
    if leadsWith pat (c :: rest) = true then some 0
    else Option.map (fun n => n + 1) (findIdx pat rest)

/-- Python `s.find(pat)`: first index, or the sentinel `-1`. -/
def pyFind (s pat : Str) : Int :=
  match findIdx pat s with
  | some n => (n : Int)
  | none => -1

/-- Clamp a (possibly negative) Python slice bound to a list position,
as Python slicing does: negative indices count from the end, and
out-of-range bounds are clamped. -/
def pyIdx (n : Nat) (i : Int) : Nat :=
  if i < 0 then ((n : Int) + i).toNat else min i.toNat n

/-- Python `s[:i]`. -/
def pySliceTo (s : Str) (i : Int) : Str := s.take (pyIdx s.length i)

/-- Python `s[i:]`. -/
def pySliceFrom (s : Str) (i : Int) : Str := s.drop (pyIdx s.length i)

/-- Python `s[a:b]`. -/
def pySlice (s : Str) (a b : Int) : Str :=
  (s.take (pyIdx s.length b)).drop (pyIdx s.length a)

/-- Worker for `replaceAll`, structurally recursive on a fuel argument so
that it computes by kernel reduction; the fuel is always at least the
length of the string, so the `0, _ :: _` case is never reached. -/
def replaceFuel (old new : Str) : Nat → Str → Str
  | _, [] => []
  | 0, s => s
  | fuel + 1, c :: rest =>
    if old ≠ [] ∧ leadsWith old (c :: rest) = true then
      new ++ replaceFuel old new fuel (List.drop (old.length - 1) rest)
    else
      c :: replaceFuel old new fuel rest

/-- Python `s.replace(old, new)`: replace the non-overlapping occurrences
of `old`, scanning left to right, and continue scanning after each
replaced occurrence.  All call sites in the script use a nonempty `old`;
for `old = []` we return `s` unchanged. -/
def replaceAll (old new : Str) (s : Str) : Str := replaceFuel old new s.length s

/-- Python `s.split('\n')`. -/
def splitNl : Str → List Str
  | [] => [[]]
  | c :: rest =>
    match splitNl rest with
    | [] => []
    | l :: ls => if c = '\n' then [] :: l :: ls else (c :: l) :: ls

/-- Python `'\n'.join(ls)`. -/
def joinNl : List Str → Str
  | [] => []
  | [l] => l
  | l :: l' :: ls => l ++ '\n' :: joinNl (l' :: ls)

/-- The whitespace characters Python `str.strip()` removes (ASCII range). -/
def isPySpace (c : Char) : Bool :=
  decide (c = ' ') || decide (c = '\t') || decide (c = '\n') ||
  decide (c = '\r') || decide (c = Char.ofNat 11) || decide (c = Char.ofNat 12)

/-- Python `s.strip()`. -/
def pyStrip (s : Str) : Str :=
  ((s.dropWhile isPySpace).reverse.dropWhile isPySpace).reverse

/-- Emit a run of newlines as the collapsing pass does: a run of `n`
newlines comes out as `min n 3` newlines. -/
def flushNl (n : Nat) : Str := List.replicate (min n 3) '\n'

/-- Worker for the final cleanup: `n` counts the newlines read so far in
the current run. -/
def collapseAux : Str → Nat → Str
  | [], n => flushNl n
  | c :: rest, n =>
    if c = '\n' then collapseAux rest (n + 1)
    else flushNl n ++ c :: collapseAux rest 0

/-- Python `re.sub(r'\n{4,}', '\n\n\n', s)`: the regex greedily matches
each maximal run of four or more newlines and replaces it with three;
shorter runs are untouched. -/
def collapseNl (s : Str) : Str := collapseAux s 0

/-!
## Literal strings of the script

Marker and patch literals, taken verbatim from `merge_migrations.py`.
The one literal holding apostrophes is assembled from `apos`.
-/

/-- Prefix dropped by the comment filter: `-- Removed:`. -/
def rm_removed : Str := ("-- Removed:").data

/-- Prefix dropped by the comment filter: `-- Remove default`. -/
def rm_default : Str := ("-- Remove default").data

/-- Modification-note marker dropped by the comment filter. -/
def m_shusei : Str := ("-- 修正:").data

/-- Exemption keyword that keeps a modification-note line. -/
def m_refunded : Str := ("refunded").data

/-- Operation `BEGIN;`, deleted from the overlay before scanning. -/
def m_begin : Str := ("BEGIN;").data

/-- Operation `COMMIT;`, deleted from the overlay before scanning. -/
def m_commit : Str := ("COMMIT;").data

/-- Start marker of the `role_creation` section (holds apostrophes). -/
def m_role_start : Str :=
  ("IF NOT EXISTS (SELECT 1 FROM pg_roles WHERE rolname = ").data ++
  [apos] ++ ("app_definer").data ++ [apos] ++ (")").data

/-- First continuation marker of the `role_creation` section. -/
def m_role_seq : Str := ("GRANT USAGE, SELECT ON ALL SEQUENCES").data

/-- Second continuation marker of the `role_creation` section. -/
def m_role_alter : Str := ("ALTER ROLE app_definer").data

/-- End marker of the `role_creation` section. -/
def m_role_end : Str := ("ALTER ROLE app_definer WITH BYPASSRLS").data

/-- Single-line marker of the `revoke_create` section. -/
def m_revoke_create : Str := ("REVOKE CREATE ON SCHEMA public FROM PUBLIC").data

/-- Start marker of the `revoke_execute` section. -/
def m_re_start : Str :=
  ("REVOKE EXECUTE ON ALL FUNCTIONS IN SCHEMA public FROM PUBLIC").data

/-- End marker of the `revoke_execute` section. -/
def m_re_end : Str := ("GRANT EXECUTE ON FUNCTION public.can_access_event").data

/-- Start marker of the `public_rpcs` section. -/
def m_pr_start : Str :=
  ("CREATE OR REPLACE FUNCTION public.rpc_public_get_event").data

/-- End marker of the `public_rpcs` section. -/
def m_pr_end : Str :=
  ("GRANT EXECUTE ON FUNCTION public.rpc_public_get_connect_account").data

/-- Start marker of the `indexes` section. -/
def m_idx_start : Str :=
  ("CREATE INDEX IF NOT EXISTS idx_payments_attendance_status").data

/-- End marker of the `indexes` section. -/
def m_idx_end : Str :=
  ("CREATE INDEX IF NOT EXISTS idx_settlements_event_created").data

/-- First start marker of the `owner_changes` section (used together with
`m_own_owner_to`). -/
def m_own_start : Str :=
  ("ALTER FUNCTION public.generate_settlement_report").data

/-- Second start marker of the `owner_changes` section. -/
def m_own_owner_to : Str := ("OWNER TO app_definer").data

/-- End marker of the `owner_changes` section. -/
def m_own_end : Str :=
  ("ALTER FUNCTION public.rpc_public_get_connect_account").data

/-- Assembler anchor: `CREATE TYPE "public"."actor_type_enum"`. -/
def m_create_type : Str := ("CREATE TYPE \"public\".\"actor_type_enum\"").data

/-- Assembler anchor: `GRANT USAGE ON SCHEMA "public" TO "postgres";`. -/
def m_grant_usage : Str := ("GRANT USAGE ON SCHEMA \"public\" TO \"postgres\";").data

/-- Assembler anchor: `ALTER DEFAULT PRIVILEGES`. -/
def m_alter_default : Str := ("ALTER DEFAULT PRIVILEGES").data

/-- Assembler anchor: `RESET ALL;`. -/
def m_reset : Str := ("RESET ALL;").data

/-- The three-statement pattern the grant-section correction searches for. -/
def grant_old : Str :=
  ("GRANT USAGE ON SCHEMA \"public\" TO \"postgres\";\n-- Removed: anon schema USAGE; access via RPC only\nGRANT USAGE ON SCHEMA \"public\" TO \"authenticated\";").data

/-- The corrected three-statement pattern with the anon grant added. -/
def grant_new : Str :=
  ("GRANT USAGE ON SCHEMA \"public\" TO \"postgres\";\nGRANT USAGE ON SCHEMA \"public\" TO \"anon\";\nGRANT USAGE ON SCHEMA \"public\" TO \"authenticated\";").data

/-- The anon schema-usage grant line the correction is meant to insert. -/
def anon_grant : Str := ("GRANT USAGE ON SCHEMA \"public\" TO \"anon\";").data

/-- Fixed header comment inserted before the role-creation block. -/
def hdr_hardening : Str :=
  ("\n-- Security hardening: app_definer role and schema access control\n").data

/-- Fixed header comment inserted before the revoke-execute block. -/
def hdr_revoke : Str :=
  ("\n-- Security: Revoke default function execute, add public-safe RPCs\n").data

/-- Fixed header comment inserted before the indexes block. -/
def hdr_indexes : Str := ("-- Performance indexes\n").data

/-- Fixed header comment inserted before the ownership block. -/
def hdr_owner : Str :=
  ("\n-- Align SECURITY DEFINER function ownership to app_definer\n").data

/-- The fixed block of six `GRANT EXECUTE` statements (`rpc_grants`). -/
def rpc_grants : Str :=
  ("\n\n-- Public RPC grants for anon role\nGRANT EXECUTE ON FUNCTION public.rpc_public_get_event(text) TO anon, authenticated;\nGRANT EXECUTE ON FUNCTION public.rpc_public_attending_count(uuid) TO anon, authenticated;\nGRANT EXECUTE ON FUNCTION public.rpc_guest_get_attendance() TO anon, authenticated;\nGRANT EXECUTE ON FUNCTION public.rpc_public_check_duplicate_email(uuid, text) TO anon, authenticated;\nGRANT EXECUTE ON FUNCTION public.rpc_guest_get_latest_payment(uuid) TO anon, authenticated;\nGRANT EXECUTE ON FUNCTION public.rpc_public_get_connect_account(uuid, uuid) TO anon, authenticated;\n").data

/-- The fixed block of nine additional ownership statements
(`additional_owners`). -/
def additional_owners : Str :=
  ("\nALTER FUNCTION public.get_event_creator_name(uuid) OWNER TO app_definer;\nALTER FUNCTION public.admin_add_attendance_with_capacity_check(uuid, character varying, character varying, public.attendance_status_enum, character varying, boolean) OWNER TO app_definer;\nALTER FUNCTION public.get_guest_token() OWNER TO app_definer;\nALTER FUNCTION public.hash_guest_token(text) OWNER TO app_definer;\nALTER FUNCTION public.handle_new_user() OWNER TO app_definer;\nALTER FUNCTION public.prevent_payment_status_rollback() OWNER TO app_definer;\nALTER FUNCTION public.update_payment_version() OWNER TO app_definer;\nALTER FUNCTION public.update_revenue_summary(uuid) OWNER TO app_definer;\nALTER FUNCTION public.update_updated_at_column() OWNER TO app_definer;\n").data

/-- A two-newline separator appended between assembled segments. -/
def nl2 : Str := ("\n\n").data

/-- A one-newline separator appended between assembled segments. -/
def nl1 : Str := ("\n").data

/-!
## CommentFilter: `remove_verbose_comments`
-/

/-- The loop of `remove_verbose_comments`: drop purely historical comment
lines and redundant modification notes, keep everything else in order. -/
def keepLoop : List Str → List Str
  | [] => []
  | line :: rest =>
    if leadsWith rm_removed (pyStrip line) = true ∨
        leadsWith rm_default (pyStrip line) = true then
      keepLoop rest
    else if containsSub m_shusei line = true ∧ containsSub m_refunded line = false then
      keepLoop rest
    else
      line :: keepLoop rest

/-- Operation `remove_verbose_comments(content)` from the script: split into lines,
drop the historical-comment lines, and rejoin. -/
def remove_verbose_comments (content : Str) : Str :=
  joinNl (keepLoop (splitNl content))

/-!
## SectionExtractor: `extract_security_additions`

The Python loop keeps a `sections` dict, a `current_section` cursor and a
`buffer`; its body is a sequence of independent `if`/`elif` chains, one
per section, each seeing the state left by the chains before it on the
same line.  We mirror that with one function per chain, composed in the
source order.
-/

/-- The sections the extractor can be collecting (values of the Python
`current_section` variable). -/
inductive SecId
  | role_creation
  | revoke_execute
  | public_rpcs
  | indexes
  | owner_changes
deriving DecidableEq

/-- The `sections` dictionary of `extract_security_additions`. -/
structure SecMap where
  role_creation : Str
  revoke_create : Str
  public_rpcs : Str
  indexes : Str
  owner_changes : Str
  revoke_execute : Str
deriving DecidableEq

/-- The loop state: the `sections` dict, `current_section` and `buffer`. -/
structure ExtractState where
  secs : SecMap
  current_section : Option SecId
  buffer : List Str
deriving DecidableEq

/-- Initial loop state: all six sections empty, no section open. -/
def initState : ExtractState := ⟨⟨[], [], [], [], [], []⟩, none, []⟩

/-- The `role_creation` chain of the loop body. -/
def chainRole (st : ExtractState) (line : Str) : ExtractState :=
  if containsSub m_role_start line = true then
    { st with current_section := some SecId.role_creation, buffer := [line] }
  else if st.current_section = some SecId.role_creation ∧
      (containsSub m_role_seq line = true ∨ containsSub m_role_alter line = true) then
    if containsSub m_role_end line = true then
      { st with secs := { st.secs with role_creation := joinNl (st.buffer ++ [line]) },
                current_section := none, buffer := [] }
    else
      { st with buffer := st.buffer ++ [line] }
  else if st.current_section = some SecId.role_creation then
    { st with buffer := st.buffer ++ [line] }
  else
    st

/-- The `revoke_create` assignment of the loop body. -/
def chainRevokeCreate (st : ExtractState) (line : Str) : ExtractState :=
  if containsSub m_revoke_create line = true then
    { st with secs := { st.secs with revoke_create := line } }
  else
    st

/-- The `revoke_execute` chain of the loop body. -/
def chainRevokeExec (st : ExtractState) (line : Str) : ExtractState :=
  if containsSub m_re_start line = true then
    { st with current_section := some SecId.revoke_execute, buffer := [line] }
  else if st.current_section = some SecId.revoke_execute ∧
      containsSub m_re_end line = true then
    { st with secs := { st.secs with revoke_execute := joinNl (st.buffer ++ [line]) },
              current_section := none, buffer := [] }
  else if st.current_section = some SecId.revoke_execute then
    { st with buffer := st.buffer ++ [line] }
  else
    st

/-- The `public_rpcs` chain of the loop body. -/
def chainPublicRpcs (st : ExtractState) (line : Str) : ExtractState :=
  if containsSub m_pr_start line = true then
    { st with current_section := some SecId.public_rpcs, buffer := [line] }
  else if st.current_section = some SecId.public_rpcs ∧
      containsSub m_pr_end line = true then
    { st with secs := { st.secs with public_rpcs := joinNl (st.buffer ++ [line]) },
              current_section := none, buffer := [] }
  else if st.current_section = some SecId.public_rpcs then
    { st with buffer := st.buffer ++ [line] }
  else
    st

/-- The `indexes` chain of the loop body. -/
def chainIndexes (st : ExtractState) (line : Str) : ExtractState :=
  if containsSub m_idx_start line = true then
    { st with current_section := some SecId.indexes, buffer := [line] }
  else if st.current_section = some SecId.indexes ∧
      containsSub m_idx_end line = true then
    { st with secs := { st.secs with indexes := joinNl (st.buffer ++ [line]) },
              current_section := none, buffer := [] }
  else if st.current_section = some SecId.indexes then
    { st with buffer := st.buffer ++ [line] }
  else
    st

/-- The `owner_changes` chain of the loop body. -/
def chainOwner (st : ExtractState) (line : Str) : ExtractState :=
  if containsSub m_own_start line = true ∧ containsSub m_own_owner_to line = true then
    { st with current_section := some SecId.owner_changes, buffer := [line] }
  else if st.current_section = some SecId.owner_changes ∧
      containsSub m_own_end line = true then
    { st with secs := { st.secs with owner_changes := joinNl (st.buffer ++ [line]) },
              current_section := none, buffer := [] }
  else if st.current_section = some SecId.owner_changes then
    { st with buffer := st.buffer ++ [line] }
  else
    st

/-- One iteration of the extractor loop: the six chains in source order. -/
def stepLine (st : ExtractState) (line : Str) : ExtractState :=
  chainOwner
    (chainIndexes
      (chainPublicRpcs
        (chainRevokeExec
          (chainRevokeCreate
            (chainRole st line) line) line) line) line) line

/-- Run the extractor loop over a list of lines. -/
def extractLines (lines : List Str) : ExtractState :=
  lines.foldl stepLine initState

/-- Operation `extract_security_additions(microfixes_content)`: strip `BEGIN;` and
`COMMIT;`, split into lines, and run the section state machine. -/
def extract_security_additions (microfixes_content : Str) : SecMap :=
  (extractLines
    (splitNl (replaceAll m_commit []
      (replaceAll m_begin [] microfixes_content)))).secs

/-!
## DocumentAssembler: the body of `main`

`mergeDraft` is the `''.join(merged)` value built by `main` (before the
final blank-line cleanup); `mergeAssemble` applies the cleanup;
`mergeMain` is the whole pipeline from the two input documents to the
written output text.
-/

/-- The concatenation `''.join(merged)` that `main` builds from the
filtered base text and the extracted sections. -/
def mergeDraft (initial_schema : Str) (s : SecMap) : Str :=
  let extension_end := pyFind initial_schema m_create_type
  let grant_section_start := pyFind initial_schema m_grant_usage
  let grant_section_end := pyFind initial_schema m_alter_default
  let grant_section :=
    replaceAll grant_old grant_new
      (pySlice initial_schema grant_section_start grant_section_end)
  let part7 := pySliceFrom initial_schema grant_section_end
  let trigger_idx := pyFind part7 m_reset
  let before_reset := pySliceTo part7 trigger_idx
  let after_reset := pySliceFrom part7 trigger_idx
  pySliceTo initial_schema extension_end ++
  hdr_hardening ++ s.revoke_create ++ nl2 ++ s.role_creation ++ nl2 ++
  pySlice initial_schema extension_end grant_section_start ++
  hdr_revoke ++ s.revoke_execute ++ nl2 ++ s.public_rpcs ++ nl2 ++
  hdr_indexes ++ s.indexes ++ nl2 ++
  grant_section ++ rpc_grants ++ nl1 ++
  before_reset ++ hdr_owner ++ s.owner_changes ++ additional_owners ++ nl2 ++
  after_reset

/-- The assembler with the final blank-line cleanup applied: what `main`
writes for a given filtered base text and section map. -/
def mergeAssemble (initial_schema : Str) (s : SecMap) : Str :=
  collapseNl (mergeDraft initial_schema s)

/-- The whole pipeline of `main`: filter the base document, extract the
overlay sections, assemble, and collapse blank-line runs.  The result is
the text written to the output file. -/
def mergeMain (base overlay : Str) : Str :=
  mergeAssemble (remove_verbose_comments base) (extract_security_additions overlay)

/-!
## Concrete documents for witnesses

A minimal base document and overlay document realising the end-to-end
scenario of spec §8: the base holds a `CREATE EXTENSION` statement, the
`CREATE TYPE` anchor, the postgres/comment/authenticated grant triple,
an `ALTER DEFAULT PRIVILEGES` statement and `RESET ALL;`; the overlay
holds well-formed versions of all six sections with paired markers.
-/

/-- Minimal base document of the §8 scenario. -/
def doc_base : Str :=
  ("CREATE EXTENSION IF NOT EXISTS pgcrypto;\n\nCREATE TYPE \"public\".\"actor_type_enum\" AS ENUM (guest, user);\n\nGRANT USAGE ON SCHEMA \"public\" TO \"postgres\";\n-- Removed: anon schema USAGE; access via RPC only\nGRANT USAGE ON SCHEMA \"public\" TO \"authenticated\";\n\nALTER DEFAULT PRIVILEGES IN SCHEMA \"public\" GRANT ALL ON TABLES TO \"service_role\";\n\nRESET ALL;\n").data

/-- Minimal overlay document of the §8 scenario, with all six sections. -/
def doc_overlay : Str :=
  ("BEGIN;\n\nDO $$\nBEGIN\n  IF NOT EXISTS (SELECT 1 FROM pg_roles WHERE rolname = ").data ++
  [apos] ++ ("app_definer").data ++ [apos] ++
  (") THEN\n    CREATE ROLE app_definer NOINHERIT;\n  END IF;\nEND $$;\nALTER ROLE app_definer WITH BYPASSRLS;\n\nREVOKE CREATE ON SCHEMA public FROM PUBLIC;\n\nREVOKE EXECUTE ON ALL FUNCTIONS IN SCHEMA public FROM PUBLIC;\nGRANT EXECUTE ON FUNCTION public.can_access_event(uuid) TO authenticated;\n\nCREATE OR REPLACE FUNCTION public.rpc_public_get_event(text) RETURNS jsonb AS body;\nGRANT EXECUTE ON FUNCTION public.rpc_public_get_connect_account(uuid, uuid) TO anon;\n\nCREATE INDEX IF NOT EXISTS idx_payments_attendance_status ON public.payments (attendance_id, status);\nCREATE INDEX IF NOT EXISTS idx_settlements_event_created ON public.settlements (event_id, created_at);\n\nALTER FUNCTION public.generate_settlement_report(uuid) OWNER TO app_definer;\nALTER FUNCTION public.rpc_public_get_connect_account(uuid, uuid) OWNER TO app_definer;\n\nCOMMIT;\n").data


/-!
## Claim-side definitions

Predicates used to state the claims: the comment filter's keep-condition
as the spec words it, the extractor's per-section marker tests, and a
runs decomposition for the blank-line collapsing pass.
-/

/-- Keep-condition of the comment filter as the spec phrases it: a line
survives unless its stripped content starts with one of the two
historical prefixes, or it holds the modification-note marker without
the exemption keyword. -/
def keepSpecLine (l : Str) : Bool :=
  !((leadsWith rm_removed (pyStrip l) || leadsWith rm_default (pyStrip l)) ||
    (containsSub m_shusei l && !containsSub m_refunded l))

/-- Read a ranged section's text out of the section map. -/
def secField (X : SecId) (m : SecMap) : Str :=
  match X with
  | SecId.role_creation => m.role_creation
  | SecId.revoke_execute => m.revoke_execute
  | SecId.public_rpcs => m.public_rpcs
  | SecId.indexes => m.indexes
  | SecId.owner_changes => m.owner_changes

/-- Write a ranged section's text into the section map. -/
def setSec (X : SecId) (v : Str) (m : SecMap) : SecMap :=
  match X with
  | SecId.role_creation => { m with role_creation := v }
  | SecId.revoke_execute => { m with revoke_execute := v }
  | SecId.public_rpcs => { m with public_rpcs := v }
  | SecId.indexes => { m with indexes := v }
  | SecId.owner_changes => { m with owner_changes := v }

/-- Does this line fire section `X`'s start test? -/
def lineStarts (X : SecId) (l : Str) : Bool :=
  match X with
  | SecId.role_creation => containsSub m_role_start l
  | SecId.revoke_execute => containsSub m_re_start l
  | SecId.public_rpcs => containsSub m_pr_start l
  | SecId.indexes => containsSub m_idx_start l
  | SecId.owner_changes =>
    containsSub m_own_start l && containsSub m_own_owner_to l

/-- Does this line fire section `X`'s end test? -/
def lineEnds (X : SecId) (l : Str) : Bool :=
  match X with
  | SecId.role_creation => containsSub m_role_end l
  | SecId.revoke_execute => containsSub m_re_end l
  | SecId.public_rpcs => containsSub m_pr_end l
  | SecId.indexes => containsSub m_idx_end l
  | SecId.owner_changes => containsSub m_own_end l

/-- All five ranged sections. -/
def allSecs : List SecId :=
  [SecId.role_creation, SecId.revoke_execute, SecId.public_rpcs,
   SecId.indexes, SecId.owner_changes]

/-- A line carrying no section marker at all: it neither starts nor ends
any ranged section, and is not a `revoke_create` line. -/
def inertLine (l : Str) : Bool :=
  !containsSub m_revoke_create l &&
  allSecs.all (fun Y => !lineStarts Y l && !lineEnds Y l)

/-- A well-formed start line for section `X`: it fires `X`'s start test
and carries no other section marker. -/
def startLineOk (X : SecId) (l : Str) : Bool :=
  lineStarts X l && !containsSub m_revoke_create l &&
  allSecs.all (fun Y => (decide (Y = X) || !lineStarts Y l) && !lineEnds Y l)

/-- A well-formed end line for section `X`: it fires `X`'s end test and
carries no other section marker. -/
def endLineOk (X : SecId) (l : Str) : Bool :=
  lineEnds X l && !containsSub m_revoke_create l &&
  allSecs.all (fun Y => !lineStarts Y l && (decide (Y = X) || !lineEnds Y l))

/-- A well-formed `revoke_create` line: it holds the marker and no other
section marker. -/
def rcLineOk (l : Str) : Bool :=
  containsSub m_revoke_create l &&
  allSecs.all (fun Y => !lineStarts Y l && !lineEnds Y l)

/-- A chunk free of newline characters. -/
def nlFree (s : Str) : Bool := s.all (fun c => !decide (c = '\n'))

/-- Rebuild a text from a leading chunk and a list of
(newline-run-length, following-chunk) pairs. -/
def runsJoin : Str → List (Nat × Str) → Str
  | c0, [] => c0
  | c0, (n, c) :: rest => c0 ++ List.replicate n '\n' ++ runsJoin c rest

/-- A well-formed runs decomposition: every run is nonempty, every chunk
is newline-free, and only the final chunk may be empty (so each run is
maximal). -/
def goodRuns : List (Nat × Str) → Bool
  | [] => true
  | [(n, c)] => decide (1 ≤ n) && nlFree c
  | (n, c) :: r :: rest =>
    decide (1 ≤ n) && nlFree c && decide (c ≠ []) && goodRuns (r :: rest)

/-- Four consecutive newline characters. -/
def nl4 : Str := ['\n', '\n', '\n', '\n']

/-!
## Basic lemmas about the string primitives
-/

/-- A concrete grant section holding the exact three-statement pattern. -/
def c2_yes : Str :=
  grant_old ++ ("\nALTER DEFAULT PRIVILEGES FOR ROLE x;").data

/-- A concrete grant section without the pattern (no comment line). -/
def c2_no : Str :=
  ("GRANT USAGE ON SCHEMA \"public\" TO \"postgres\";\nGRANT USAGE ON SCHEMA \"public\" TO \"authenticated\";\nALTER DEFAULT PRIVILEGES FOR ROLE x;").data

/-- A concrete overlay with two `REVOKE CREATE` marker lines. -/
def c10_overlay : Str :=
  ("REVOKE CREATE ON SCHEMA public FROM PUBLIC; -- first\nsome middle line\nREVOKE CREATE ON SCHEMA public FROM PUBLIC; -- second").data

/-- Concrete overlay for the C3 witness, `role_creation` section. -/
def c3_role_s : Str :=
  ("  IF NOT EXISTS (SELECT 1 FROM pg_roles WHERE rolname = ").data ++
  [apos] ++ ("app_definer").data ++ [apos] ++ (") THEN").data

/-- Concrete overlay for the C3 witness, `role_creation` section. -/
def c3_role_ov : Str :=
  ("x\n").data ++ c3_role_s ++
  ("\nmid line\nALTER ROLE app_definer WITH BYPASSRLS;\ntail").data

/-- Concrete overlay for the C3 witness, `revoke_create` section. -/
def c3_rc_ov : Str :=
  ("x\nREVOKE CREATE ON SCHEMA public FROM PUBLIC;\ntail").data

/-- A concrete base text holding all four anchors. -/
def c8_base : Str :=
  ("AAA\nCREATE TYPE \"public\".\"actor_type_enum\" AS x;\nBBB\nGRANT USAGE ON SCHEMA \"public\" TO \"postgres\";\nCCC\nALTER DEFAULT PRIVILEGES x;\nDDD\nRESET ALL;\nEEE\n").data

/-- The sections invariant for C9: no field of the section map holds the
pattern, and every buffered line is a line of the stripped overlay. -/
def noPatInv (pat : Str) (ls : List Str) (st : ExtractState) : Prop :=
  containsSub pat st.secs.role_creation = false ∧
  containsSub pat st.secs.revoke_create = false ∧
  containsSub pat st.secs.public_rpcs = false ∧
  containsSub pat st.secs.indexes = false ∧
  containsSub pat st.secs.owner_changes = false ∧
  containsSub pat st.secs.revoke_execute = false ∧
  ∀ x ∈ st.buffer, x ∈ ls

/-- Counterexample to C9 as stated: removing `BEGIN;` can create a fresh
`BEGIN;` by juxtaposition, and the extracted `revoke_create` section then
holds it. -/
def c9_overlay : Str :=
  ("REVOKE CREATE ON SCHEMA public FROM PUBLIC; BEGBEGIN;IN;").data

/-- The comment line inside the correction pattern. -/
def rm_comment_line : Str :=
  ("-- Removed: anon schema USAGE; access via RPC only").data

/-- The authenticated-grant line inside the correction pattern. -/
def g2line : Str :=
  ("GRANT USAGE ON SCHEMA \"public\" TO \"authenticated\";").data

lemma leadsWith_iff {p s : Str} :
    leadsWith p s = true ↔ ∃ t, s = p ++ t := by
  induction p generalizing s with
  | nil => simp [leadsWith]
  | cons a p ih =>
    cases s with
    | nil => simp [leadsWith]
    | cons c cs =>
      simp only [leadsWith, Bool.and_eq_true, decide_eq_true_eq, ih,
        List.cons_append, List.cons.injEq]
      constructor
      · rintro ⟨rfl, t, rfl⟩; exact ⟨t, rfl, rfl⟩
      · rintro ⟨t, rfl, rfl⟩; exact ⟨rfl, t, rfl⟩

lemma leadsWith_length {p s : Str} (h : leadsWith p s = true) :
    p.length ≤ s.length := by
  rcases leadsWith_iff.mp h with ⟨t, rfl⟩
  simp

lemma leadsWith_self (p t : Str) : leadsWith p (p ++ t) = true :=
  leadsWith_iff.mpr ⟨t, rfl⟩

lemma containsSub_iff {p s : Str} :
    containsSub p s = true ↔ ∃ a b, s = a ++ p ++ b := by
  induction s with
  | nil =>
    simp only [containsSub, leadsWith_iff]
    constructor
    · rintro ⟨t, ht⟩
      exact ⟨[], t, by simpa using ht⟩
    · rintro ⟨a, b, hab⟩
      refine ⟨b, ?_⟩
      rcases List.append_eq_nil.mp (List.append_eq_nil.mp hab.symm).1 with ⟨rfl, rfl⟩
      simpa using hab
  | cons c cs ih =>
    simp only [containsSub, Bool.or_eq_true, leadsWith_iff, ih]
    constructor
    · rintro (⟨t, ht⟩ | ⟨a, b, rfl⟩)
      · exact ⟨[], t, by simpa using ht⟩
      · exact ⟨c :: a, b, by simp⟩
    · rintro ⟨a, b, hab⟩
      cases a with
      | nil => exact Or.inl ⟨b, by simpa using hab⟩
      | cons a0 a' =>
        simp only [List.cons_append, List.cons.injEq] at hab
        exact Or.inr ⟨a', b, hab.2⟩

lemma containsSub_of_leadsWith {p s : Str} (h : leadsWith p s = true) :
    containsSub p s = true := by
  rcases leadsWith_iff.mp h with ⟨t, rfl⟩
  exact containsSub_iff.mpr ⟨[], t, by simp⟩

lemma containsSub_append_right {p : Str} (a : Str) {b : Str}
    (h : containsSub p b = true) : containsSub p (a ++ b) = true := by
  rcases containsSub_iff.mp h with ⟨x, y, rfl⟩
  exact containsSub_iff.mpr ⟨a ++ x, y, by simp⟩

lemma containsSub_append_left {p a : Str} (b : Str)
    (h : containsSub p a = true) : containsSub p (a ++ b) = true := by
  rcases containsSub_iff.mp h with ⟨x, y, rfl⟩
  exact containsSub_iff.mpr ⟨x, y ++ b, by simp⟩

lemma containsSub_trans {q p s : Str} (h1 : containsSub q p = true)
    (h2 : containsSub p s = true) : containsSub q s = true := by
  rcases containsSub_iff.mp h1 with ⟨x, y, rfl⟩
  rcases containsSub_iff.mp h2 with ⟨a, b, rfl⟩
  exact containsSub_iff.mpr ⟨a ++ x, y ++ b, by simp⟩

lemma containsSub_self (p : Str) : containsSub p p = true :=
  containsSub_iff.mpr ⟨[], [], by simp⟩

lemma findIdx_none_iff {pat s : Str} :
    findIdx pat s = none ↔ containsSub pat s = false := by
  induction s with
  | nil =>
    by_cases h : leadsWith pat [] = true <;> simp [findIdx, containsSub, h]
  | cons c cs ih =>
    by_cases h : leadsWith pat (c :: cs) = true <;>
      simp [findIdx, containsSub, h, ih]

lemma findIdx_le_length {pat s : Str} {n : Nat} (h : findIdx pat s = some n) :
    n ≤ s.length := by
  induction s generalizing n with
  | nil =>
    simp only [findIdx] at h
    split_ifs at h <;> simp_all
  | cons c cs ih =>
    simp only [findIdx] at h
    split_ifs at h
    · cases h; simp
    · cases hr : findIdx pat cs with
      | none => simp [hr] at h
      | some m =>
        simp only [hr, Option.map_some'] at h
        cases h
        simpa using Nat.succ_le_succ (ih hr)

lemma splitNl_ne_nil (s : Str) : splitNl s ≠ [] := by
  induction s with
  | nil => simp [splitNl]
  | cons c rest ih =>
    simp only [splitNl]
    rcases h : splitNl rest with _ | ⟨l, ls⟩
    · exact absurd h ih
    · split_ifs <;> simp

lemma joinNl_cons_cons (a b : Str) (t : List Str) :
    joinNl (a :: b :: t) = a ++ '\n' :: joinNl (b :: t) := rfl

lemma joinNl_splitNl (s : Str) : joinNl (splitNl s) = s := by
  induction s with
  | nil => rfl
  | cons c rest ih =>
    simp only [splitNl]
    rcases h : splitNl rest with _ | ⟨l, ls⟩
    · exact absurd h (splitNl_ne_nil rest)
    · rw [h] at ih
      by_cases hc : c = '\n'
      · subst hc
        cases ls with
        | nil => simp [joinNl] at ih ⊢; simp [ih]
        | cons l' ls' => simp [joinNl] at ih ⊢; simp [ih]
      · cases ls with
        | nil => simp [joinNl, hc] at ih ⊢; simp [ih]
        | cons l' ls' => simp [joinNl, hc] at ih ⊢; simp [ih]

/-!
## Claim C6: the comment filter
-/

lemma keepLoop_eq_filter (ls : List Str) :
    keepLoop ls = ls.filter keepSpecLine := by
  induction ls with
  | nil => rfl
  | cons line rest ih =>
    cases hA : leadsWith rm_removed (pyStrip line) <;>
      cases hB : leadsWith rm_default (pyStrip line) <;>
      cases hC : containsSub m_shusei line <;>
      cases hD : containsSub m_refunded line <;>
      simp [keepLoop, keepSpecLine, hA, hB, hC, hD, List.filter_cons, ih]

/-- Claim C6: for every base document text, the comment filter keeps the
lines in order, dropping exactly the lines whose stripped content starts
with `-- Removed:` or `-- Remove default` and the lines containing
`-- 修正:` without `refunded`; all other lines pass unchanged, and an
input with no matching lines is returned unchanged. -/
theorem claim_C6_comment_filter :
    (∀ content : Str,
      remove_verbose_comments content =
        joinNl ((splitNl content).filter keepSpecLine)) ∧
    (∀ content : Str,
      (∀ l ∈ splitNl content, keepSpecLine l = true) →
      remove_verbose_comments content = content) := by
  constructor
  · intro content
    simp [remove_verbose_comments, keepLoop_eq_filter]
  · intro content h
    rw [remove_verbose_comments, keepLoop_eq_filter,
      List.filter_eq_self.mpr h, joinNl_splitNl]

/-- Witness for C6: a concrete document with one line of each dropped
kind and untouched lines, and a concrete document with no matching
lines. -/
theorem claim_C6_comment_filter_witness :
    (remove_verbose_comments
        (("keep a\n-- Removed: x\n  -- Remove default y\nkeep b -- 修正: refunded ok\n-- 修正: gone\nkeep c").data) =
      joinNl ((splitNl (("keep a\n-- Removed: x\n  -- Remove default y\nkeep b -- 修正: refunded ok\n-- 修正: gone\nkeep c").data)).filter keepSpecLine)) ∧
    ((∀ l ∈ splitNl (("keep a\nkeep b").data), keepSpecLine l = true) ∧
      remove_verbose_comments (("keep a\nkeep b").data) = ("keep a\nkeep b").data) :=
  ⟨claim_C6_comment_filter.1 _,
   by decide,
   claim_C6_comment_filter.2 _ (by decide)⟩

/-!
## Claim C7: absent anchor, sentinel offset, degenerate slice
-/

/-- The assembler concatenation written out without its `let` bindings. -/
lemma mergeDraft_eq (s : Str) (m : SecMap) :
    mergeDraft s m =
      pySliceTo s (pyFind s m_create_type) ++
      hdr_hardening ++ m.revoke_create ++ nl2 ++ m.role_creation ++ nl2 ++
      pySlice s (pyFind s m_create_type) (pyFind s m_grant_usage) ++
      hdr_revoke ++ m.revoke_execute ++ nl2 ++ m.public_rpcs ++ nl2 ++
      hdr_indexes ++ m.indexes ++ nl2 ++
      replaceAll grant_old grant_new
        (pySlice s (pyFind s m_grant_usage) (pyFind s m_alter_default)) ++
      rpc_grants ++ nl1 ++
      pySliceTo (pySliceFrom s (pyFind s m_alter_default))
        (pyFind (pySliceFrom s (pyFind s m_alter_default)) m_reset) ++
      hdr_owner ++ m.owner_changes ++ additional_owners ++ nl2 ++
      pySliceFrom (pySliceFrom s (pyFind s m_alter_default))
        (pyFind (pySliceFrom s (pyFind s m_alter_default)) m_reset) := rfl

/-- Claim C7: when the `CREATE TYPE` anchor is absent from the filtered
base text, the anchor search returns the sentinel `-1`, the
leading-prefix slice degenerates to the whole text minus its last
character, and the assembler still assembles output starting with that
degenerate segment. -/
theorem claim_C7_missing_anchor (s : Str)
    (h : containsSub m_create_type s = false) :
    pyFind s m_create_type = -1 ∧
    pySliceTo s (pyFind s m_create_type) = s.dropLast ∧
    ∀ secs : SecMap, ∃ rest, mergeDraft s secs = s.dropLast ++ rest := by
  have hn : findIdx m_create_type s = none := findIdx_none_iff.mpr h
  have h1 : pyFind s m_create_type = -1 := by simp [pyFind, hn]
  have h2 : pySliceTo s (pyFind s m_create_type) = s.dropLast := by
    rw [h1]
    show s.take (pyIdx s.length (-1)) = s.dropLast
    have hidx : pyIdx s.length (-1) = s.length - 1 := by
      simp only [pyIdx]
      norm_num
      omega
    rw [hidx, List.dropLast_eq_take]
  refine ⟨h1, h2, fun secs => ?_⟩
  rw [mergeDraft_eq]
  simp only [List.append_assoc]
  rw [h2]
  exact ⟨_, rfl⟩

/-- Witness for C7 at a concrete anchor-free text. -/
theorem claim_C7_missing_anchor_witness :
    containsSub m_create_type (("no anchors at all").data) = false ∧
    pyFind (("no anchors at all").data) m_create_type = -1 ∧
    pySliceTo (("no anchors at all").data)
        (pyFind (("no anchors at all").data) m_create_type) =
      (("no anchors at all").data).dropLast :=
  ⟨by decide,
   (claim_C7_missing_anchor _ (by decide)).1,
   (claim_C7_missing_anchor _ (by decide)).2.1⟩

/-!
## Lemmas about `replaceAll` (Python `str.replace`)
-/

lemma replaceFuel_of_not_contains {old new s : Str}
    (hc : containsSub old s = false) (fuel : Nat) :
    replaceFuel old new fuel s = s := by
  induction s generalizing fuel with
  | nil => cases fuel <;> rfl
  | cons c rest ih =>
    cases fuel with
    | zero => rfl
    | succ f =>
      have hc' : leadsWith old (c :: rest) = false ∧ containsSub old rest = false := by
        constructor
        · cases hl : leadsWith old (c :: rest)
          · rfl
          · simp [containsSub, hl] at hc
        · cases hr : containsSub old rest
          · rfl
          · simp [containsSub, hr] at hc
      simp only [replaceFuel]
      rw [if_neg (by simp [hc'.1]), ih hc'.2]

lemma replaceAll_of_not_contains {old new s : Str}
    (hc : containsSub old s = false) : replaceAll old new s = s :=
  replaceFuel_of_not_contains hc _

lemma replaceFuel_length_le {old new : Str} (h : new.length ≤ old.length) :
    ∀ (fuel : Nat) (s : Str), (replaceFuel old new fuel s).length ≤ s.length := by
  intro fuel
  induction fuel with
  | zero => intro s; cases s <;> simp [replaceFuel]
  | succ f ih =>
    intro s
    cases s with
    | nil => simp [replaceFuel]
    | cons c rest =>
      by_cases hcond : old ≠ [] ∧ leadsWith old (c :: rest) = true
      · have hol : old.length ≤ rest.length + 1 := by
          simpa using leadsWith_length hcond.2
        have hne : 1 ≤ old.length := by
          have := List.length_pos.mpr hcond.1; omega
        have hrec := ih (List.drop (old.length - 1) rest)
        simp only [replaceFuel, if_pos hcond, List.length_append,
          List.length_drop, List.length_cons] at hrec ⊢
        omega
      · have hrec := ih rest
        simp only [replaceFuel, if_neg hcond, List.length_cons]
        omega

lemma replaceFuel_length_lt {old new : Str} (h : new.length < old.length) :
    ∀ (fuel : Nat) (s : Str), containsSub old s = true → s.length ≤ fuel →
      (replaceFuel old new fuel s).length < s.length := by
  intro fuel
  induction fuel with
  | zero =>
    intro s hc hf
    cases s with
    | nil =>
      have : leadsWith old [] = true := by simpa [containsSub] using hc
      have : old = [] := by
        cases old with
        | nil => rfl
        | cons a t => simp [leadsWith] at this
      subst this; simp at h
    | cons c rest => simp at hf
  | succ f ih =>
    intro s hc hf
    cases s with
    | nil =>
      have : leadsWith old [] = true := by simpa [containsSub] using hc
      have : old = [] := by
        cases old with
        | nil => rfl
        | cons a t => simp [leadsWith] at this
      subst this; simp at h
    | cons c rest =>
      have hne : old ≠ [] := by
        intro he; subst he; simp at h
      by_cases hl : leadsWith old (c :: rest) = true
      · have hcond : old ≠ [] ∧ leadsWith old (c :: rest) = true := ⟨hne, hl⟩
        have hol : old.length ≤ rest.length + 1 := by simpa using leadsWith_length hl
        have hone : 1 ≤ old.length := by
          have := List.length_pos.mpr hne; omega
        have hrec := replaceFuel_length_le (le_of_lt h) f
          (List.drop (old.length - 1) rest)
        simp only [replaceFuel, if_pos hcond, List.length_append,
          List.length_drop, List.length_cons] at hrec ⊢
        omega
      · have hcond : ¬(old ≠ [] ∧ leadsWith old (c :: rest) = true) := by
          simp [hl]
        have hcr : containsSub old rest = true := by
          cases hr : containsSub old rest
          · simp [containsSub, hr, hl] at hc
          · rfl
        have hrest : rest.length ≤ f := by
          simp only [List.length_cons] at hf; omega
        have hrec := ih rest hcr hrest
        simp only [replaceFuel, if_neg hcond, List.length_cons]
        omega

lemma replaceFuel_contains_new {old new : Str} (hne : old ≠ []) :
    ∀ (fuel : Nat) (s : Str), containsSub old s = true → s.length ≤ fuel →
      containsSub new (replaceFuel old new fuel s) = true := by
  intro fuel
  induction fuel with
  | zero =>
    intro s hc hf
    cases s with
    | nil =>
      have : leadsWith old [] = true := by simpa [containsSub] using hc
      cases old with
      | nil => exact absurd rfl hne
      | cons a t => simp [leadsWith] at this
    | cons c rest => simp at hf
  | succ f ih =>
    intro s hc hf
    cases s with
    | nil =>
      have : leadsWith old [] = true := by simpa [containsSub] using hc
      cases old with
      | nil => exact absurd rfl hne
      | cons a t => simp [leadsWith] at this
    | cons c rest =>
      by_cases hl : leadsWith old (c :: rest) = true
      · have hcond : old ≠ [] ∧ leadsWith old (c :: rest) = true := ⟨hne, hl⟩
        simp only [replaceFuel, if_pos hcond]
        exact containsSub_append_left _ (containsSub_self new)
      · have hcond : ¬(old ≠ [] ∧ leadsWith old (c :: rest) = true) := by
          simp [hl]
        have hcr : containsSub old rest = true := by
          cases hr : containsSub old rest
          · simp [containsSub, hr, hl] at hc
          · rfl
        have hrest : rest.length ≤ f := by
          simp only [List.length_cons] at hf; omega
        have hrec := ih rest hcr hrest
        simp only [replaceFuel, if_neg hcond]
        exact containsSub_append_right [c] hrec

lemma replaceAll_length_lt {old new s : Str} (h : new.length < old.length)
    (hc : containsSub old s = true) :
    (replaceAll old new s).length < s.length :=
  replaceFuel_length_lt h _ s hc le_rfl

lemma replaceAll_ne {old new s : Str} (h : new.length < old.length)
    (hc : containsSub old s = true) : replaceAll old new s ≠ s := by
  intro he
  have := replaceAll_length_lt h hc
  rw [he] at this
  omega

lemma replaceAll_contains_new {old new s : Str} (hne : old ≠ [])
    (hc : containsSub old s = true) :
    containsSub new (replaceAll old new s) = true :=
  replaceFuel_contains_new hne _ s hc le_rfl

/-!
## Claim C2: the grant-section correction fires iff the pattern occurs
-/

/-- Claim C2: the literal grant-section correction is applied if and only
if the exact three-statement pattern occurs in the slice the assembler
takes between the postgres-grant anchor and the `ALTER DEFAULT
PRIVILEGES` anchor; when the pattern is absent, the emitted grant section
is byte-identical to that slice, and when it is present the emitted
section differs and holds the corrected pattern with the anon grant. -/
theorem claim_C2_grant_correction (s : Str) :
    (containsSub grant_old
        (pySlice s (pyFind s m_grant_usage) (pyFind s m_alter_default)) = false →
      replaceAll grant_old grant_new
          (pySlice s (pyFind s m_grant_usage) (pyFind s m_alter_default)) =
        pySlice s (pyFind s m_grant_usage) (pyFind s m_alter_default)) ∧
    (containsSub grant_old
        (pySlice s (pyFind s m_grant_usage) (pyFind s m_alter_default)) = true →
      replaceAll grant_old grant_new
          (pySlice s (pyFind s m_grant_usage) (pyFind s m_alter_default)) ≠
        pySlice s (pyFind s m_grant_usage) (pyFind s m_alter_default) ∧
      containsSub grant_new
          (replaceAll grant_old grant_new
            (pySlice s (pyFind s m_grant_usage) (pyFind s m_alter_default))) = true ∧
      containsSub anon_grant
          (replaceAll grant_old grant_new
            (pySlice s (pyFind s m_grant_usage) (pyFind s m_alter_default))) = true) := by
  have hlen : grant_new.length < grant_old.length := by decide
  have hne : grant_old ≠ [] := by decide
  have hanon : containsSub anon_grant grant_new = true := by decide
  refine ⟨fun hc => replaceAll_of_not_contains hc, fun hc => ?_⟩
  exact ⟨replaceAll_ne hlen hc, replaceAll_contains_new hne hc,
    containsSub_trans hanon (replaceAll_contains_new hne hc)⟩

/-- Witness for C2 at concrete texts, one for each direction. -/
theorem claim_C2_grant_correction_witness :
    (containsSub grant_old
        (pySlice c2_yes (pyFind c2_yes m_grant_usage)
          (pyFind c2_yes m_alter_default)) = true ∧
      replaceAll grant_old grant_new
          (pySlice c2_yes (pyFind c2_yes m_grant_usage)
            (pyFind c2_yes m_alter_default)) ≠
        pySlice c2_yes (pyFind c2_yes m_grant_usage)
          (pyFind c2_yes m_alter_default)) ∧
    (containsSub grant_old
        (pySlice c2_no (pyFind c2_no m_grant_usage)
          (pyFind c2_no m_alter_default)) = false ∧
      replaceAll grant_old grant_new
          (pySlice c2_no (pyFind c2_no m_grant_usage)
            (pyFind c2_no m_alter_default)) =
        pySlice c2_no (pyFind c2_no m_grant_usage)
          (pyFind c2_no m_alter_default)) :=
  ⟨⟨by decide, ((claim_C2_grant_correction c2_yes).2 (by decide)).1⟩,
   ⟨by decide, (claim_C2_grant_correction c2_no).1 (by decide)⟩⟩

/-!
## Per-chain lemmas about the extractor state machine
-/

lemma chainRole_rc (st : ExtractState) (l : Str) :
    (chainRole st l).secs.revoke_create = st.secs.revoke_create := by
  unfold chainRole; split_ifs <;> rfl

lemma chainRevokeExec_rc (st : ExtractState) (l : Str) :
    (chainRevokeExec st l).secs.revoke_create = st.secs.revoke_create := by
  unfold chainRevokeExec; split_ifs <;> rfl

lemma chainPublicRpcs_rc (st : ExtractState) (l : Str) :
    (chainPublicRpcs st l).secs.revoke_create = st.secs.revoke_create := by
  unfold chainPublicRpcs; split_ifs <;> rfl

lemma chainIndexes_rc (st : ExtractState) (l : Str) :
    (chainIndexes st l).secs.revoke_create = st.secs.revoke_create := by
  unfold chainIndexes; split_ifs <;> rfl

lemma chainOwner_rc (st : ExtractState) (l : Str) :
    (chainOwner st l).secs.revoke_create = st.secs.revoke_create := by
  unfold chainOwner; split_ifs <;> rfl

lemma chainRevokeCreate_rc (st : ExtractState) (l : Str) :
    (chainRevokeCreate st l).secs.revoke_create =
      if containsSub m_revoke_create l = true then l
      else st.secs.revoke_create := by
  unfold chainRevokeCreate; split_ifs <;> rfl

lemma stepLine_rc (st : ExtractState) (l : Str) :
    (stepLine st l).secs.revoke_create =
      if containsSub m_revoke_create l = true then l
      else st.secs.revoke_create := by
  unfold stepLine
  rw [chainOwner_rc, chainIndexes_rc, chainPublicRpcs_rc, chainRevokeExec_rc,
    chainRevokeCreate_rc, chainRole_rc]

lemma foldl_stepLine_rc (ls : List Str) (st : ExtractState) :
    (List.foldl stepLine st ls).secs.revoke_create =
      List.foldl
        (fun acc l => if containsSub m_revoke_create l = true then l else acc)
        st.secs.revoke_create ls := by
  induction ls generalizing st with
  | nil => rfl
  | cons l ls ih =>
    simp only [List.foldl_cons]
    rw [ih, stepLine_rc]

lemma foldl_choose_eq_getLastD (p : Str → Bool) (a : Str) (ls : List Str) :
    List.foldl (fun acc l => if p l = true then l else acc) a ls =
      (ls.filter p).getLastD a := by
  induction ls generalizing a with
  | nil => rfl
  | cons l ls ih =>
    by_cases h : p l = true
    · simp only [List.foldl_cons, if_pos h, List.filter_cons_of_pos h]
      rw [ih]
      cases hf : ls.filter p <;> simp [List.getLastD]
    · simp only [List.foldl_cons, if_neg h,
        List.filter_cons_of_neg (by simpa using h)]
      exact ih a

/-!
## Claim C10: repeated `revoke_create` lines, last one wins
-/

/-- Claim C10: when more than one line of the stripped overlay holds the
`REVOKE CREATE` marker, the extracted `revoke_create` section is the last
such line — each later match overwrites the earlier one. -/
theorem claim_C10_revoke_create_last (ov : Str) (ls : List Str)
    (hsplit : splitNl (replaceAll m_commit [] (replaceAll m_begin [] ov)) = ls)
    (htwo : 2 ≤ (ls.filter (fun l => containsSub m_revoke_create l)).length) :
    (extract_security_additions ov).revoke_create =
      (ls.filter (fun l => containsSub m_revoke_create l)).getLastD [] := by
  unfold extract_security_additions extractLines
  rw [hsplit, foldl_stepLine_rc,
    foldl_choose_eq_getLastD (fun l => containsSub m_revoke_create l)]
  rfl

/-- Witness for C10 at a concrete overlay: the second marker line is
returned. -/
theorem claim_C10_revoke_create_last_witness :
    2 ≤ ((splitNl (replaceAll m_commit [] (replaceAll m_begin [] c10_overlay))).filter
        (fun l => containsSub m_revoke_create l)).length ∧
    (extract_security_additions c10_overlay).revoke_create =
      ((splitNl (replaceAll m_commit [] (replaceAll m_begin [] c10_overlay))).filter
        (fun l => containsSub m_revoke_create l)).getLastD [] ∧
    (extract_security_additions c10_overlay).revoke_create =
      ("REVOKE CREATE ON SCHEMA public FROM PUBLIC; -- second").data :=
  ⟨by decide, claim_C10_revoke_create_last c10_overlay _ rfl (by decide), by decide⟩

lemma chainRC_cur (st : ExtractState) (l : Str) :
    (chainRevokeCreate st l).current_section = st.current_section := by
  unfold chainRevokeCreate; split_ifs <;> rfl

lemma chainRole_cur_back {st : ExtractState} {l : Str} {Y : SecId}
    (h : (chainRole st l).current_section = some Y) :
    st.current_section = some Y ∨ lineStarts Y l = true := by
  unfold chainRole at h
  split_ifs at h with h1 h2 h3 h4
  all_goals try (exact Or.inl h)
  all_goals try (exact Option.noConfusion h)
  all_goals
    (have hy : SecId.role_creation = Y := Option.some.inj h
     subst hy
     exact Or.inr (by simpa [lineStarts] using h1))


lemma chainRevokeExec_cur_back {st : ExtractState} {l : Str} {Y : SecId}
    (h : (chainRevokeExec st l).current_section = some Y) :
    st.current_section = some Y ∨ lineStarts Y l = true := by
  unfold chainRevokeExec at h
  split_ifs at h with h1 h2 h3
  all_goals try (exact Or.inl h)
  all_goals try (exact Option.noConfusion h)
  all_goals
    (have hy : SecId.revoke_execute = Y := Option.some.inj h
     subst hy
     exact Or.inr (by simpa [lineStarts] using h1))


lemma chainPublicRpcs_cur_back {st : ExtractState} {l : Str} {Y : SecId}
    (h : (chainPublicRpcs st l).current_section = some Y) :
    st.current_section = some Y ∨ lineStarts Y l = true := by
  unfold chainPublicRpcs at h
  split_ifs at h with h1 h2 h3
  all_goals try (exact Or.inl h)
  all_goals try (exact Option.noConfusion h)
  all_goals
    (have hy : SecId.public_rpcs = Y := Option.some.inj h
     subst hy
     exact Or.inr (by simpa [lineStarts] using h1))


lemma chainIndexes_cur_back {st : ExtractState} {l : Str} {Y : SecId}
    (h : (chainIndexes st l).current_section = some Y) :
    st.current_section = some Y ∨ lineStarts Y l = true := by
  unfold chainIndexes at h
  split_ifs at h with h1 h2 h3
  all_goals try (exact Or.inl h)
  all_goals try (exact Option.noConfusion h)
  all_goals
    (have hy : SecId.indexes = Y := Option.some.inj h
     subst hy
     exact Or.inr (by simpa [lineStarts] using h1))


lemma chainOwner_cur_back {st : ExtractState} {l : Str} {Y : SecId}
    (h : (chainOwner st l).current_section = some Y) :
    st.current_section = some Y ∨ lineStarts Y l = true := by
  unfold chainOwner at h
  split_ifs at h with h1 h2 h3
  all_goals try (exact Or.inl h)
  all_goals try (exact Option.noConfusion h)
  all_goals
    (have hy : SecId.owner_changes = Y := Option.some.inj h
     subst hy
     exact Or.inr (by simp [lineStarts, h1.1, h1.2]))


lemma stepLine_cur_back {st : ExtractState} {l : Str} {Y : SecId}
    (h : (stepLine st l).current_section = some Y) :
    st.current_section = some Y ∨ lineStarts Y l = true := by
  unfold stepLine at h
  rcases chainOwner_cur_back h with h | hS
  · rcases chainIndexes_cur_back h with h | hS
    · rcases chainPublicRpcs_cur_back h with h | hS
      · rcases chainRevokeExec_cur_back h with h | hS
        · rw [chainRC_cur] at h
          exact chainRole_cur_back h
        · exact Or.inr hS
      · exact Or.inr hS
    · exact Or.inr hS
  · exact Or.inr hS

lemma chainRole_secField {st : ExtractState} {l : Str} (Y : SecId)
    (hY : Y ≠ SecId.role_creation) :
    secField Y (chainRole st l).secs = secField Y st.secs := by
  unfold chainRole
  split_ifs <;> cases Y <;> simp_all [secField]

lemma chainRevokeExec_secField {st : ExtractState} {l : Str} (Y : SecId)
    (hY : Y ≠ SecId.revoke_execute) :
    secField Y (chainRevokeExec st l).secs = secField Y st.secs := by
  unfold chainRevokeExec
  split_ifs <;> cases Y <;> simp_all [secField]

lemma chainPublicRpcs_secField {st : ExtractState} {l : Str} (Y : SecId)
    (hY : Y ≠ SecId.public_rpcs) :
    secField Y (chainPublicRpcs st l).secs = secField Y st.secs := by
  unfold chainPublicRpcs
  split_ifs <;> cases Y <;> simp_all [secField]

lemma chainIndexes_secField {st : ExtractState} {l : Str} (Y : SecId)
    (hY : Y ≠ SecId.indexes) :
    secField Y (chainIndexes st l).secs = secField Y st.secs := by
  unfold chainIndexes
  split_ifs <;> cases Y <;> simp_all [secField]

lemma chainOwner_secField {st : ExtractState} {l : Str} (Y : SecId)
    (hY : Y ≠ SecId.owner_changes) :
    secField Y (chainOwner st l).secs = secField Y st.secs := by
  unfold chainOwner
  split_ifs <;> cases Y <;> simp_all [secField]

lemma chainRC_secField {st : ExtractState} {l : Str} (Y : SecId) :
    secField Y (chainRevokeCreate st l).secs = secField Y st.secs := by
  unfold chainRevokeCreate
  split_ifs <;> cases Y <;> rfl

lemma chainRole_secs_of_ne {st : ExtractState} {l : Str}
    (hc : st.current_section ≠ some SecId.role_creation) :
    (chainRole st l).secs = st.secs := by
  unfold chainRole
  split_ifs with h1 h2 h3 h4
  all_goals try rfl
  all_goals try (exact absurd h2.1 hc)
  all_goals try (exact absurd h3 hc)
  all_goals (exact absurd h4 hc)


lemma chainRevokeExec_secs_of_ne {st : ExtractState} {l : Str}
    (hc : st.current_section ≠ some SecId.revoke_execute) :
    (chainRevokeExec st l).secs = st.secs := by
  unfold chainRevokeExec
  split_ifs with h1 h2 h3
  all_goals try rfl
  all_goals try (exact absurd h2.1 hc)
  all_goals try (exact absurd h3 hc)
  all_goals (exact absurd h4 hc)


lemma chainPublicRpcs_secs_of_ne {st : ExtractState} {l : Str}
    (hc : st.current_section ≠ some SecId.public_rpcs) :
    (chainPublicRpcs st l).secs = st.secs := by
  unfold chainPublicRpcs
  split_ifs with h1 h2 h3
  all_goals try rfl
  all_goals try (exact absurd h2.1 hc)
  all_goals try (exact absurd h3 hc)
  all_goals (exact absurd h4 hc)


lemma chainIndexes_secs_of_ne {st : ExtractState} {l : Str}
    (hc : st.current_section ≠ some SecId.indexes) :
    (chainIndexes st l).secs = st.secs := by
  unfold chainIndexes
  split_ifs with h1 h2 h3
  all_goals try rfl
  all_goals try (exact absurd h2.1 hc)
  all_goals try (exact absurd h3 hc)
  all_goals (exact absurd h4 hc)


lemma chainOwner_secs_of_ne {st : ExtractState} {l : Str}
    (hc : st.current_section ≠ some SecId.owner_changes) :
    (chainOwner st l).secs = st.secs := by
  unfold chainOwner
  split_ifs with h1 h2 h3
  all_goals try rfl
  all_goals try (exact absurd h2.1 hc)
  all_goals try (exact absurd h3 hc)
  all_goals (exact absurd h4 hc)


lemma chainRole_field_self {st : ExtractState} {l : Str}
    (hE : containsSub m_role_end l = false) :
    (chainRole st l).secs.role_creation = st.secs.role_creation := by
  unfold chainRole
  split_ifs with h1 h2 h3 h4
  all_goals try rfl
  all_goals try (exact absurd h3 (by simp [hE]))
  all_goals (exact absurd h2.2 (by simp [hE]))


lemma chainRevokeExec_field_self {st : ExtractState} {l : Str}
    (hE : containsSub m_re_end l = false) :
    (chainRevokeExec st l).secs.revoke_execute = st.secs.revoke_execute := by
  unfold chainRevokeExec
  split_ifs with h1 h2 h3
  all_goals try rfl
  all_goals try (exact absurd h3 (by simp [hE]))
  all_goals (exact absurd h2.2 (by simp [hE]))


lemma chainPublicRpcs_field_self {st : ExtractState} {l : Str}
    (hE : containsSub m_pr_end l = false) :
    (chainPublicRpcs st l).secs.public_rpcs = st.secs.public_rpcs := by
  unfold chainPublicRpcs
  split_ifs with h1 h2 h3
  all_goals try rfl
  all_goals try (exact absurd h3 (by simp [hE]))
  all_goals (exact absurd h2.2 (by simp [hE]))


lemma chainIndexes_field_self {st : ExtractState} {l : Str}
    (hE : containsSub m_idx_end l = false) :
    (chainIndexes st l).secs.indexes = st.secs.indexes := by
  unfold chainIndexes
  split_ifs with h1 h2 h3
  all_goals try rfl
  all_goals try (exact absurd h3 (by simp [hE]))
  all_goals (exact absurd h2.2 (by simp [hE]))


lemma chainOwner_field_self {st : ExtractState} {l : Str}
    (hE : containsSub m_own_end l = false) :
    (chainOwner st l).secs.owner_changes = st.secs.owner_changes := by
  unfold chainOwner
  split_ifs with h1 h2 h3
  all_goals try rfl
  all_goals try (exact absurd h3 (by simp [hE]))
  all_goals (exact absurd h2.2 (by simp [hE]))


/-- Stepping on a line that does not fire `X`'s start test cannot open
section `X`. -/
lemma stepLine_cur_preserve {st : ExtractState} {l : Str} (X : SecId)
    (hcur : st.current_section ≠ some X) (hS : lineStarts X l = false) :
    (stepLine st l).current_section ≠ some X := by
  intro h
  rcases stepLine_cur_back h with h | h
  · exact hcur h
  · rw [hS] at h; exact Bool.noConfusion h

/-- Stepping on a line that does not fire `X`'s end test preserves `X`'s
extracted text. -/
lemma stepLine_secField_B {st : ExtractState} {l : Str} (X : SecId)
    (hE : lineEnds X l = false) :
    secField X (stepLine st l).secs = secField X st.secs := by
  cases X with
  | role_creation =>
    unfold stepLine
    rw [chainOwner_secField _ (by simp), chainIndexes_secField _ (by simp),
      chainPublicRpcs_secField _ (by simp), chainRevokeExec_secField _ (by simp),
      chainRC_secField]
    exact chainRole_field_self (by simpa [lineEnds] using hE)
  | revoke_execute =>
    unfold stepLine
    rw [chainOwner_secField _ (by simp), chainIndexes_secField _ (by simp),
      chainPublicRpcs_secField _ (by simp)]
    show (chainRevokeExec _ l).secs.revoke_execute = _
    rw [chainRevokeExec_field_self (by simpa [lineEnds] using hE)]
    rw [show (chainRevokeCreate (chainRole st l) l).secs.revoke_execute =
      secField SecId.revoke_execute (chainRevokeCreate (chainRole st l) l).secs from rfl]
    rw [chainRC_secField, chainRole_secField _ (by simp)]
  | public_rpcs =>
    unfold stepLine
    rw [chainOwner_secField _ (by simp), chainIndexes_secField _ (by simp)]
    show (chainPublicRpcs _ l).secs.public_rpcs = _
    rw [chainPublicRpcs_field_self (by simpa [lineEnds] using hE)]
    rw [show (chainRevokeExec (chainRevokeCreate (chainRole st l) l) l).secs.public_rpcs =
      secField SecId.public_rpcs
        (chainRevokeExec (chainRevokeCreate (chainRole st l) l) l).secs from rfl]
    rw [chainRevokeExec_secField _ (by simp), chainRC_secField,
      chainRole_secField _ (by simp)]
  | indexes =>
    unfold stepLine
    rw [chainOwner_secField _ (by simp)]
    show (chainIndexes _ l).secs.indexes = _
    rw [chainIndexes_field_self (by simpa [lineEnds] using hE)]
    rw [show (chainPublicRpcs (chainRevokeExec (chainRevokeCreate (chainRole st l) l) l) l).secs.indexes =
      secField SecId.indexes
        (chainPublicRpcs (chainRevokeExec (chainRevokeCreate (chainRole st l) l) l) l).secs from rfl]
    rw [chainPublicRpcs_secField _ (by simp), chainRevokeExec_secField _ (by simp),
      chainRC_secField, chainRole_secField _ (by simp)]
  | owner_changes =>
    unfold stepLine
    show (chainOwner _ l).secs.owner_changes = _
    rw [chainOwner_field_self (by simpa [lineEnds] using hE)]
    rw [show (chainIndexes (chainPublicRpcs (chainRevokeExec (chainRevokeCreate (chainRole st l) l) l) l) l).secs.owner_changes =
      secField SecId.owner_changes
        (chainIndexes (chainPublicRpcs (chainRevokeExec (chainRevokeCreate (chainRole st l) l) l) l) l).secs from rfl]
    rw [chainIndexes_secField _ (by simp), chainPublicRpcs_secField _ (by simp),
      chainRevokeExec_secField _ (by simp), chainRC_secField,
      chainRole_secField _ (by simp)]

/-- Stepping on a line that does not fire `X`'s start test, while `X` is
not open, preserves `X`'s extracted text. -/
lemma stepLine_secField_A {st : ExtractState} {l : Str} (X : SecId)
    (hcur : st.current_section ≠ some X) (hS : lineStarts X l = false) :
    secField X (stepLine st l).secs = secField X st.secs := by
  have htrack : ∀ st' : ExtractState, st'.current_section = some X →
      st.current_section = some X ∨ lineStarts X l = true → False := by
    intro _ _ h
    rcases h with h | h
    · exact hcur h
    · rw [hS] at h; exact Bool.noConfusion h
  cases X with
  | role_creation =>
    unfold stepLine
    rw [chainOwner_secField _ (by simp), chainIndexes_secField _ (by simp),
      chainPublicRpcs_secField _ (by simp), chainRevokeExec_secField _ (by simp),
      chainRC_secField]
    show secField SecId.role_creation (chainRole st l).secs = _
    rw [chainRole_secs_of_ne hcur]
  | revoke_execute =>
    unfold stepLine
    rw [chainOwner_secField _ (by simp), chainIndexes_secField _ (by simp),
      chainPublicRpcs_secField _ (by simp)]
    have hM : (chainRevokeCreate (chainRole st l) l).current_section ≠
        some SecId.revoke_execute := by
      intro hm
      rw [chainRC_cur] at hm
      exact htrack _ hm (chainRole_cur_back hm)
    rw [chainRevokeExec_secs_of_ne hM, chainRC_secField,
      chainRole_secField _ (by simp)]
  | public_rpcs =>
    unfold stepLine
    rw [chainOwner_secField _ (by simp), chainIndexes_secField _ (by simp)]
    have hM : (chainRevokeExec (chainRevokeCreate (chainRole st l) l) l).current_section ≠
        some SecId.public_rpcs := by
      intro hm
      rcases chainRevokeExec_cur_back hm with hm | hs
      · rw [chainRC_cur] at hm
        exact htrack _ hm (chainRole_cur_back hm)
      · rw [hS] at hs; exact Bool.noConfusion hs
    rw [chainPublicRpcs_secs_of_ne hM, chainRevokeExec_secField _ (by simp),
      chainRC_secField, chainRole_secField _ (by simp)]
  | indexes =>
    unfold stepLine
    rw [chainOwner_secField _ (by simp)]
    have hM : (chainPublicRpcs (chainRevokeExec (chainRevokeCreate (chainRole st l) l) l) l).current_section ≠
        some SecId.indexes := by
      intro hm
      rcases chainPublicRpcs_cur_back hm with hm | hs
      · rcases chainRevokeExec_cur_back hm with hm | hs
        · rw [chainRC_cur] at hm
          exact htrack _ hm (chainRole_cur_back hm)
        · rw [hS] at hs; exact Bool.noConfusion hs
      · rw [hS] at hs; exact Bool.noConfusion hs
    rw [chainIndexes_secs_of_ne hM, chainPublicRpcs_secField _ (by simp),
      chainRevokeExec_secField _ (by simp), chainRC_secField,
      chainRole_secField _ (by simp)]
  | owner_changes =>
    unfold stepLine
    have hM : (chainIndexes (chainPublicRpcs (chainRevokeExec (chainRevokeCreate (chainRole st l) l) l) l) l).current_section ≠
        some SecId.owner_changes := by
      intro hm
      rcases chainIndexes_cur_back hm with hm | hs
      · rcases chainPublicRpcs_cur_back hm with hm | hs
        · rcases chainRevokeExec_cur_back hm with hm | hs
          · rw [chainRC_cur] at hm
            exact htrack _ hm (chainRole_cur_back hm)
          · rw [hS] at hs; exact Bool.noConfusion hs
        · rw [hS] at hs; exact Bool.noConfusion hs
      · rw [hS] at hs; exact Bool.noConfusion hs
    rw [chainOwner_secs_of_ne hM, chainIndexes_secField _ (by simp),
      chainPublicRpcs_secField _ (by simp), chainRevokeExec_secField _ (by simp),
      chainRC_secField, chainRole_secField _ (by simp)]

/-- Folding over lines without `X`'s start test, while `X` is not open,
leaves `X` closed and its text unchanged. -/
lemma foldl_phase_A {X : SecId} : ∀ (A : List Str) (st : ExtractState),
    (∀ l ∈ A, lineStarts X l = false) → st.current_section ≠ some X →
    secField X (List.foldl stepLine st A).secs = secField X st.secs ∧
      (List.foldl stepLine st A).current_section ≠ some X := by
  intro A
  induction A with
  | nil => exact fun st _ hcur => ⟨rfl, hcur⟩
  | cons l A ih =>
    intro st hA hcur
    have hl : lineStarts X l = false := hA l (by simp)
    have hA' : ∀ l' ∈ A, lineStarts X l' = false := fun l' hm => hA l' (by simp [hm])
    have hcur' := stepLine_cur_preserve X hcur hl
    have := ih (stepLine st l) hA' hcur'
    exact ⟨by rw [List.foldl_cons, this.1, stepLine_secField_A X hcur hl],
      by rw [List.foldl_cons]; exact this.2⟩

/-- Folding over lines without `X`'s end test leaves `X`'s text
unchanged. -/
lemma foldl_phase_B {X : SecId} : ∀ (B : List Str) (st : ExtractState),
    (∀ l ∈ B, lineEnds X l = false) →
    secField X (List.foldl stepLine st B).secs = secField X st.secs := by
  intro B
  induction B with
  | nil => exact fun st _ => rfl
  | cons l B ih =>
    intro st hB
    have hl : lineEnds X l = false := hB l (by simp)
    have hB' : ∀ l' ∈ B, lineEnds X l' = false := fun l' hm => hB l' (by simp [hm])
    rw [List.foldl_cons, ih (stepLine st l) hB', stepLine_secField_B X hl]

/-!
## Claim C4: unterminated section yields the empty string
-/

/-- Claim C4: when a ranged section's start marker occurs in the overlay
but its end marker never occurs afterwards — the stripped overlay's lines
split into a part `A` with no start-test hit followed by a part `B` with
no end-test hit — the extractor maps that section to the empty string:
the buffered lines are discarded, no partial text is returned, and no
error is raised. -/
theorem claim_C4_unterminated_section (X : SecId) (ov : Str) (A B : List Str)
    (hsplit : splitNl (replaceAll m_commit [] (replaceAll m_begin [] ov)) = A ++ B)
    (hstart : ∃ l ∈ B, lineStarts X l = true)
    (hA : ∀ l ∈ A, lineStarts X l = false)
    (hB : ∀ l ∈ B, lineEnds X l = false) :
    secField X (extract_security_additions ov) = [] := by
  unfold extract_security_additions extractLines
  rw [hsplit, List.foldl_append]
  have h1 := foldl_phase_A A initState hA (by simp [initState])
  rw [foldl_phase_B B _ hB, h1.1]
  cases X <;> rfl

/-- Witness for C4: a concrete overlay whose `public_rpcs` start marker
is present but never followed by the end marker. -/
theorem claim_C4_unterminated_section_witness :
    (∃ l ∈ [("CREATE OR REPLACE FUNCTION public.rpc_public_get_event(text) RETURNS jsonb;").data,
        ("unfinished body line").data],
      lineStarts SecId.public_rpcs l = true) ∧
    secField SecId.public_rpcs
      (extract_security_additions
        (("prefix line\nCREATE OR REPLACE FUNCTION public.rpc_public_get_event(text) RETURNS jsonb;\nunfinished body line").data)) = [] :=
  ⟨⟨("CREATE OR REPLACE FUNCTION public.rpc_public_get_event(text) RETURNS jsonb;").data,
    by decide⟩,
   claim_C4_unterminated_section SecId.public_rpcs _
     [("prefix line").data]
     [("CREATE OR REPLACE FUNCTION public.rpc_public_get_event(text) RETURNS jsonb;").data,
      ("unfinished body line").data]
     (by decide)
     ⟨("CREATE OR REPLACE FUNCTION public.rpc_public_get_event(text) RETURNS jsonb;").data,
      by decide⟩
     (by decide) (by decide)⟩

/-!
## Marker bookkeeping for well-formed section extraction (claim C3)
-/

lemma inertLine_spec {l : Str} (h : inertLine l = true) :
    containsSub m_revoke_create l = false ∧
    (∀ Y, lineStarts Y l = false) ∧ (∀ Y, lineEnds Y l = false) := by
  simp only [inertLine, Bool.and_eq_true, Bool.not_eq_true'] at h
  obtain ⟨hrc, hall⟩ := h
  have hp : ∀ Y : SecId, (!lineStarts Y l && !lineEnds Y l) = true := by
    intro Y
    exact List.all_eq_true.mp hall Y (by cases Y <;> simp [allSecs])
  refine ⟨hrc, fun Y => ?_, fun Y => ?_⟩ <;>
    (have hy := hp Y
     simp only [Bool.and_eq_true, Bool.not_eq_true'] at hy)
  · exact hy.1
  · exact hy.2

lemma startLineOk_spec {X : SecId} {l : Str} (h : startLineOk X l = true) :
    lineStarts X l = true ∧ containsSub m_revoke_create l = false ∧
    (∀ Y, Y ≠ X → lineStarts Y l = false) ∧ (∀ Y, lineEnds Y l = false) := by
  simp only [startLineOk, Bool.and_eq_true, Bool.not_eq_true'] at h
  obtain ⟨⟨hX, hrc⟩, hall⟩ := h
  have hp : ∀ Y : SecId,
      ((decide (Y = X) || !lineStarts Y l) && !lineEnds Y l) = true := by
    intro Y
    exact List.all_eq_true.mp hall Y (by cases Y <;> simp [allSecs])
  refine ⟨hX, hrc, fun Y hY => ?_, fun Y => ?_⟩
  · have := hp Y
    simp only [Bool.and_eq_true, Bool.or_eq_true, decide_eq_true_eq,
      Bool.not_eq_true'] at this
    rcases this.1 with h' | h'
    · exact absurd h' hY
    · exact h'
  · have := hp Y
    simp only [Bool.and_eq_true, Bool.not_eq_true'] at this
    exact this.2

lemma endLineOk_spec {X : SecId} {l : Str} (h : endLineOk X l = true) :
    lineEnds X l = true ∧ containsSub m_revoke_create l = false ∧
    (∀ Y, lineStarts Y l = false) ∧ (∀ Y, Y ≠ X → lineEnds Y l = false) := by
  simp only [endLineOk, Bool.and_eq_true, Bool.not_eq_true'] at h
  obtain ⟨⟨hX, hrc⟩, hall⟩ := h
  have hp : ∀ Y : SecId,
      (!lineStarts Y l && (decide (Y = X) || !lineEnds Y l)) = true := by
    intro Y
    exact List.all_eq_true.mp hall Y (by cases Y <;> simp [allSecs])
  refine ⟨hX, hrc, fun Y => ?_, fun Y hY => ?_⟩
  · have := hp Y
    simp only [Bool.and_eq_true, Bool.not_eq_true'] at this
    exact this.1
  · have := hp Y
    simp only [Bool.and_eq_true, Bool.or_eq_true, decide_eq_true_eq,
      Bool.not_eq_true'] at this
    rcases this.2 with h' | h'
    · exact absurd h' hY
    · exact h'

lemma rcLineOk_spec {l : Str} (h : rcLineOk l = true) :
    containsSub m_revoke_create l = true ∧
    (∀ Y, lineStarts Y l = false) ∧ (∀ Y, lineEnds Y l = false) := by
  simp only [rcLineOk, Bool.and_eq_true] at h
  obtain ⟨hrc, hall⟩ := h
  have hp : ∀ Y : SecId, (!lineStarts Y l && !lineEnds Y l) = true := by
    intro Y
    exact List.all_eq_true.mp hall Y (by cases Y <;> simp [allSecs])
  refine ⟨hrc, fun Y => ?_, fun Y => ?_⟩ <;>
    (have hy := hp Y
     simp only [Bool.and_eq_true, Bool.not_eq_true'] at hy)
  · exact hy.1
  · exact hy.2

lemma ownStart_not {l : Str} (h : lineStarts SecId.owner_changes l = false) :
    ¬(containsSub m_own_start l = true ∧ containsSub m_own_owner_to l = true) := by
  intro hab
  simp [lineStarts, hab.1, hab.2] at h

/-!
## Per-chain branch lemmas (skip, append, start, finalize)
-/

lemma chainRole_skip {st : ExtractState} {l : Str}
    (hS : containsSub m_role_start l = false)
    (hc : st.current_section ≠ some SecId.role_creation) : chainRole st l = st := by
  have hS' : ¬containsSub m_role_start l = true := by simp [hS]
  unfold chainRole
  split_ifs with h1 h2 h3 h4
  all_goals
    first
      | rfl
      | exact absurd h1 hS'
      | exact absurd h1.1 hc
      | exact absurd h1.2 hE'
      | exact absurd h1 hc
      | exact absurd h2.1 hc
      | exact absurd h2.2 hE'
      | exact absurd h2 hc
      | exact absurd h3 hE'
      | exact absurd h3 hc
      | exact absurd h4 hc
      | exact absurd h1 hS
      | exact absurd h1.1 hS.elim
      | exact absurd h1 hS
      | exact absurd hc (by assumption)

lemma chainRC_skip {st : ExtractState} {l : Str}
    (hS : containsSub m_revoke_create l = false) : chainRevokeCreate st l = st := by
  have hS' : ¬containsSub m_revoke_create l = true := by simp [hS]
  unfold chainRevokeCreate
  split_ifs with h1
  all_goals
    first
      | rfl
      | exact absurd h1 hS'
      | exact absurd h1.1 hc
      | exact absurd h1.2 hE'
      | exact absurd h1 hc
      | exact absurd h2.1 hc
      | exact absurd h2.2 hE'
      | exact absurd h2 hc
      | exact absurd h3 hE'
      | exact absurd h3 hc
      | exact absurd h4 hc
      | exact absurd h1 hS
      | exact absurd h1.1 hS.elim
      | exact absurd h1 hS
      | exact absurd hc (by assumption)

lemma chainRevokeExec_skip {st : ExtractState} {l : Str}
    (hS : containsSub m_re_start l = false)
    (hc : st.current_section ≠ some SecId.revoke_execute) :
    chainRevokeExec st l = st := by
  have hS' : ¬containsSub m_re_start l = true := by simp [hS]
  unfold chainRevokeExec
  split_ifs with h1 h2 h3
  all_goals
    first
      | rfl
      | exact absurd h1 hS'
      | exact absurd h1.1 hc
      | exact absurd h1.2 hE'
      | exact absurd h1 hc
      | exact absurd h2.1 hc
      | exact absurd h2.2 hE'
      | exact absurd h2 hc
      | exact absurd h3 hE'
      | exact absurd h3 hc
      | exact absurd h4 hc
      | exact absurd h1 hS
      | exact absurd h1.1 hS.elim
      | exact absurd h1 hS
      | exact absurd hc (by assumption)

lemma chainPublicRpcs_skip {st : ExtractState} {l : Str}
    (hS : containsSub m_pr_start l = false)
    (hc : st.current_section ≠ some SecId.public_rpcs) :
    chainPublicRpcs st l = st := by
  have hS' : ¬containsSub m_pr_start l = true := by simp [hS]
  unfold chainPublicRpcs
  split_ifs with h1 h2 h3
  all_goals
    first
      | rfl
      | exact absurd h1 hS'
      | exact absurd h1.1 hc
      | exact absurd h1.2 hE'
      | exact absurd h1 hc
      | exact absurd h2.1 hc
      | exact absurd h2.2 hE'
      | exact absurd h2 hc
      | exact absurd h3 hE'
      | exact absurd h3 hc
      | exact absurd h4 hc
      | exact absurd h1 hS
      | exact absurd h1.1 hS.elim
      | exact absurd h1 hS
      | exact absurd hc (by assumption)

lemma chainIndexes_skip {st : ExtractState} {l : Str}
    (hS : containsSub m_idx_start l = false)
    (hc : st.current_section ≠ some SecId.indexes) :
    chainIndexes st l = st := by
  have hS' : ¬containsSub m_idx_start l = true := by simp [hS]
  unfold chainIndexes
  split_ifs with h1 h2 h3
  all_goals
    first
      | rfl
      | exact absurd h1 hS'
      | exact absurd h1.1 hc
      | exact absurd h1.2 hE'
      | exact absurd h1 hc
      | exact absurd h2.1 hc
      | exact absurd h2.2 hE'
      | exact absurd h2 hc
      | exact absurd h3 hE'
      | exact absurd h3 hc
      | exact absurd h4 hc
      | exact absurd h1 hS
      | exact absurd h1.1 hS.elim
      | exact absurd h1 hS
      | exact absurd hc (by assumption)

lemma chainOwner_skip {st : ExtractState} {l : Str}
    (hS : ¬(containsSub m_own_start l = true ∧ containsSub m_own_owner_to l = true))
    (hc : st.current_section ≠ some SecId.owner_changes) :
    chainOwner st l = st := by
  unfold chainOwner
  split_ifs with h1 h2 h3
  all_goals
    first
      | rfl
      | exact absurd h1 hS'
      | exact absurd h1.1 hc
      | exact absurd h1.2 hE'
      | exact absurd h1 hc
      | exact absurd h2.1 hc
      | exact absurd h2.2 hE'
      | exact absurd h2 hc
      | exact absurd h3 hE'
      | exact absurd h3 hc
      | exact absurd h4 hc
      | exact absurd h1 hS
      | exact absurd h1.1 hS.elim
      | exact absurd h1 hS
      | exact absurd hc (by assumption)

lemma chainRole_append {st : ExtractState} {l : Str}
    (hS : containsSub m_role_start l = false)
    (hE : containsSub m_role_end l = false)
    (hc : st.current_section = some SecId.role_creation) :
    chainRole st l = { st with buffer := st.buffer ++ [l] } := by
  have hS' : ¬containsSub m_role_start l = true := by simp [hS]
  have hE' : ¬containsSub m_role_end l = true := by simp [hE]
  unfold chainRole
  split_ifs with h1 h2 h3 h4
  all_goals
    first
      | rfl
      | exact absurd h1 hS'
      | exact absurd h1.1 hc
      | exact absurd h1.2 hE'
      | exact absurd h1 hc
      | exact absurd h2.1 hc
      | exact absurd h2.2 hE'
      | exact absurd h2 hc
      | exact absurd h3 hE'
      | exact absurd h3 hc
      | exact absurd h4 hc
      | exact absurd h1 hS
      | exact absurd h1.1 hS.elim
      | exact absurd h1 hS
      | exact absurd hc (by assumption)

lemma chainRevokeExec_append {st : ExtractState} {l : Str}
    (hS : containsSub m_re_start l = false)
    (hE : containsSub m_re_end l = false)
    (hc : st.current_section = some SecId.revoke_execute) :
    chainRevokeExec st l = { st with buffer := st.buffer ++ [l] } := by
  have hS' : ¬containsSub m_re_start l = true := by simp [hS]
  have hE' : ¬containsSub m_re_end l = true := by simp [hE]
  unfold chainRevokeExec
  split_ifs with h1 h2 h3
  all_goals
    first
      | rfl
      | exact absurd h1 hS'
      | exact absurd h1.1 hc
      | exact absurd h1.2 hE'
      | exact absurd h1 hc
      | exact absurd h2.1 hc
      | exact absurd h2.2 hE'
      | exact absurd h2 hc
      | exact absurd h3 hE'
      | exact absurd h3 hc
      | exact absurd h4 hc
      | exact absurd h1 hS
      | exact absurd h1.1 hS.elim
      | exact absurd h1 hS
      | exact absurd hc (by assumption)

lemma chainPublicRpcs_append {st : ExtractState} {l : Str}
    (hS : containsSub m_pr_start l = false)
    (hE : containsSub m_pr_end l = false)
    (hc : st.current_section = some SecId.public_rpcs) :
    chainPublicRpcs st l = { st with buffer := st.buffer ++ [l] } := by
  have hS' : ¬containsSub m_pr_start l = true := by simp [hS]
  have hE' : ¬containsSub m_pr_end l = true := by simp [hE]
  unfold chainPublicRpcs
  split_ifs with h1 h2 h3
  all_goals
    first
      | rfl
      | exact absurd h1 hS'
      | exact absurd h1.1 hc
      | exact absurd h1.2 hE'
      | exact absurd h1 hc
      | exact absurd h2.1 hc
      | exact absurd h2.2 hE'
      | exact absurd h2 hc
      | exact absurd h3 hE'
      | exact absurd h3 hc
      | exact absurd h4 hc
      | exact absurd h1 hS
      | exact absurd h1.1 hS.elim
      | exact absurd h1 hS
      | exact absurd hc (by assumption)

lemma chainIndexes_append {st : ExtractState} {l : Str}
    (hS : containsSub m_idx_start l = false)
    (hE : containsSub m_idx_end l = false)
    (hc : st.current_section = some SecId.indexes) :
    chainIndexes st l = { st with buffer := st.buffer ++ [l] } := by
  have hS' : ¬containsSub m_idx_start l = true := by simp [hS]
  have hE' : ¬containsSub m_idx_end l = true := by simp [hE]
  unfold chainIndexes
  split_ifs with h1 h2 h3
  all_goals
    first
      | rfl
      | exact absurd h1 hS'
      | exact absurd h1.1 hc
      | exact absurd h1.2 hE'
      | exact absurd h1 hc
      | exact absurd h2.1 hc
      | exact absurd h2.2 hE'
      | exact absurd h2 hc
      | exact absurd h3 hE'
      | exact absurd h3 hc
      | exact absurd h4 hc
      | exact absurd h1 hS
      | exact absurd h1.1 hS.elim
      | exact absurd h1 hS
      | exact absurd hc (by assumption)

lemma chainOwner_append {st : ExtractState} {l : Str}
    (hS : ¬(containsSub m_own_start l = true ∧ containsSub m_own_owner_to l = true))
    (hE : containsSub m_own_end l = false)
    (hc : st.current_section = some SecId.owner_changes) :
    chainOwner st l = { st with buffer := st.buffer ++ [l] } := by
  have hE' : ¬containsSub m_own_end l = true := by simp [hE]
  unfold chainOwner
  split_ifs with h1 h2 h3
  all_goals
    first
      | rfl
      | exact absurd h1 hS'
      | exact absurd h1.1 hc
      | exact absurd h1.2 hE'
      | exact absurd h1 hc
      | exact absurd h2.1 hc
      | exact absurd h2.2 hE'
      | exact absurd h2 hc
      | exact absurd h3 hE'
      | exact absurd h3 hc
      | exact absurd h4 hc
      | exact absurd h1 hS
      | exact absurd h1.1 hS.elim
      | exact absurd h1 hS
      | exact absurd hc (by assumption)

lemma chainRole_start {st : ExtractState} {l : Str}
    (h1 : containsSub m_role_start l = true) :
    chainRole st l =
      { st with current_section := some SecId.role_creation, buffer := [l] } := by
  unfold chainRole
  rw [if_pos h1]

lemma chainRevokeExec_start {st : ExtractState} {l : Str}
    (h1 : containsSub m_re_start l = true) :
    chainRevokeExec st l =
      { st with current_section := some SecId.revoke_execute, buffer := [l] } := by
  unfold chainRevokeExec
  rw [if_pos h1]

lemma chainPublicRpcs_start {st : ExtractState} {l : Str}
    (h1 : containsSub m_pr_start l = true) :
    chainPublicRpcs st l =
      { st with current_section := some SecId.public_rpcs, buffer := [l] } := by
  unfold chainPublicRpcs
  rw [if_pos h1]

lemma chainIndexes_start {st : ExtractState} {l : Str}
    (h1 : containsSub m_idx_start l = true) :
    chainIndexes st l =
      { st with current_section := some SecId.indexes, buffer := [l] } := by
  unfold chainIndexes
  rw [if_pos h1]

lemma chainOwner_start {st : ExtractState} {l : Str}
    (hA : containsSub m_own_start l = true)
    (hB : containsSub m_own_owner_to l = true) :
    chainOwner st l =
      { st with current_section := some SecId.owner_changes, buffer := [l] } := by
  unfold chainOwner
  rw [if_pos ⟨hA, hB⟩]

lemma chainRC_set {st : ExtractState} {l : Str}
    (h1 : containsSub m_revoke_create l = true) :
    chainRevokeCreate st l =
      { st with secs := { st.secs with revoke_create := l } } := by
  unfold chainRevokeCreate
  rw [if_pos h1]

lemma chainRole_finalize {st : ExtractState} {l : Str}
    (hS : containsSub m_role_start l = false)
    (hAlt : containsSub m_role_alter l = true)
    (hE : containsSub m_role_end l = true)
    (hc : st.current_section = some SecId.role_creation) :
    chainRole st l =
      { st with secs := { st.secs with role_creation := joinNl (st.buffer ++ [l]) },
                current_section := none, buffer := [] } := by
  unfold chainRole
  rw [if_neg (by simp [hS]), if_pos ⟨hc, Or.inr hAlt⟩, if_pos hE]

lemma chainRevokeExec_finalize {st : ExtractState} {l : Str}
    (hS : containsSub m_re_start l = false)
    (hE : containsSub m_re_end l = true)
    (hc : st.current_section = some SecId.revoke_execute) :
    chainRevokeExec st l =
      { st with secs := { st.secs with revoke_execute := joinNl (st.buffer ++ [l]) },
                current_section := none, buffer := [] } := by
  unfold chainRevokeExec
  rw [if_neg (by simp [hS]), if_pos ⟨hc, hE⟩]

lemma chainPublicRpcs_finalize {st : ExtractState} {l : Str}
    (hS : containsSub m_pr_start l = false)
    (hE : containsSub m_pr_end l = true)
    (hc : st.current_section = some SecId.public_rpcs) :
    chainPublicRpcs st l =
      { st with secs := { st.secs with public_rpcs := joinNl (st.buffer ++ [l]) },
                current_section := none, buffer := [] } := by
  unfold chainPublicRpcs
  rw [if_neg (by simp [hS]), if_pos ⟨hc, hE⟩]

lemma chainIndexes_finalize {st : ExtractState} {l : Str}
    (hS : containsSub m_idx_start l = false)
    (hE : containsSub m_idx_end l = true)
    (hc : st.current_section = some SecId.indexes) :
    chainIndexes st l =
      { st with secs := { st.secs with indexes := joinNl (st.buffer ++ [l]) },
                current_section := none, buffer := [] } := by
  unfold chainIndexes
  rw [if_neg (by simp [hS]), if_pos ⟨hc, hE⟩]

lemma chainOwner_finalize {st : ExtractState} {l : Str}
    (hS : ¬(containsSub m_own_start l = true ∧ containsSub m_own_owner_to l = true))
    (hE : containsSub m_own_end l = true)
    (hc : st.current_section = some SecId.owner_changes) :
    chainOwner st l =
      { st with secs := { st.secs with owner_changes := joinNl (st.buffer ++ [l]) },
                current_section := none, buffer := [] } := by
  unfold chainOwner
  rw [if_neg hS, if_pos ⟨hc, hE⟩]

/-!
## Whole-iteration lemmas for well-formed lines
-/

/-- A marker-free line with no open section leaves the state unchanged. -/
lemma stepLine_inert_none {st : ExtractState} {l : Str}
    (h : inertLine l = true) (hc : st.current_section = none) :
    stepLine st l = st := by
  obtain ⟨hrc, hS, _⟩ := inertLine_spec h
  unfold stepLine
  rw [chainRole_skip (hS SecId.role_creation) (by simp [hc]),
    chainRC_skip hrc,
    chainRevokeExec_skip (hS SecId.revoke_execute) (by simp [hc]),
    chainPublicRpcs_skip (hS SecId.public_rpcs) (by simp [hc]),
    chainIndexes_skip (hS SecId.indexes) (by simp [hc]),
    chainOwner_skip (ownStart_not (hS SecId.owner_changes)) (by simp [hc])]

/-- A marker-free line while section `X` is open is appended to the
buffer. -/
lemma stepLine_inert_some {st : ExtractState} {l : Str} (X : SecId)
    (h : inertLine l = true) (hc : st.current_section = some X) :
    stepLine st l = { st with buffer := st.buffer ++ [l] } := by
  obtain ⟨hrc, hS, hE⟩ := inertLine_spec h
  cases X with
  | role_creation =>
    unfold stepLine
    rw [chainRole_append (hS SecId.role_creation) (hE SecId.role_creation) hc,
      chainRC_skip hrc,
      chainRevokeExec_skip (hS SecId.revoke_execute) (by simp [hc]),
      chainPublicRpcs_skip (hS SecId.public_rpcs) (by simp [hc]),
      chainIndexes_skip (hS SecId.indexes) (by simp [hc]),
      chainOwner_skip (ownStart_not (hS SecId.owner_changes)) (by simp [hc])]
  | revoke_execute =>
    unfold stepLine
    rw [chainRole_skip (hS SecId.role_creation) (by simp [hc]),
      chainRC_skip hrc,
      chainRevokeExec_append (hS SecId.revoke_execute) (hE SecId.revoke_execute) hc,
      chainPublicRpcs_skip (hS SecId.public_rpcs) (by simp [hc]),
      chainIndexes_skip (hS SecId.indexes) (by simp [hc]),
      chainOwner_skip (ownStart_not (hS SecId.owner_changes)) (by simp [hc])]
  | public_rpcs =>
    unfold stepLine
    rw [chainRole_skip (hS SecId.role_creation) (by simp [hc]),
      chainRC_skip hrc,
      chainRevokeExec_skip (hS SecId.revoke_execute) (by simp [hc]),
      chainPublicRpcs_append (hS SecId.public_rpcs) (hE SecId.public_rpcs) hc,
      chainIndexes_skip (hS SecId.indexes) (by simp [hc]),
      chainOwner_skip (ownStart_not (hS SecId.owner_changes)) (by simp [hc])]
  | indexes =>
    unfold stepLine
    rw [chainRole_skip (hS SecId.role_creation) (by simp [hc]),
      chainRC_skip hrc,
      chainRevokeExec_skip (hS SecId.revoke_execute) (by simp [hc]),
      chainPublicRpcs_skip (hS SecId.public_rpcs) (by simp [hc]),
      chainIndexes_append (hS SecId.indexes) (hE SecId.indexes) hc,
      chainOwner_skip (ownStart_not (hS SecId.owner_changes)) (by simp [hc])]
  | owner_changes =>
    unfold stepLine
    rw [chainRole_skip (hS SecId.role_creation) (by simp [hc]),
      chainRC_skip hrc,
      chainRevokeExec_skip (hS SecId.revoke_execute) (by simp [hc]),
      chainPublicRpcs_skip (hS SecId.public_rpcs) (by simp [hc]),
      chainIndexes_skip (hS SecId.indexes) (by simp [hc]),
      chainOwner_append (ownStart_not (hS SecId.owner_changes))
        (hE SecId.owner_changes) hc]

/-- A well-formed start line for `X`, reached with no open section, opens
`X` with the line as the whole buffer. -/
lemma stepLine_start {st : ExtractState} {l : Str} (X : SecId)
    (h : startLineOk X l = true) (hc : st.current_section = none) :
    stepLine st l = { st with current_section := some X, buffer := [l] } := by
  obtain ⟨hX, hrc, hSo, _⟩ := startLineOk_spec h
  cases X with
  | role_creation =>
    unfold stepLine
    rw [chainRole_start hX,
      chainRC_skip hrc,
      chainRevokeExec_skip (hSo SecId.revoke_execute (by simp)) (by simp),
      chainPublicRpcs_skip (hSo SecId.public_rpcs (by simp)) (by simp),
      chainIndexes_skip (hSo SecId.indexes (by simp)) (by simp),
      chainOwner_skip (ownStart_not (hSo SecId.owner_changes (by simp))) (by simp)]
  | revoke_execute =>
    unfold stepLine
    rw [chainRole_skip (hSo SecId.role_creation (by simp)) (by simp [hc]),
      chainRC_skip hrc,
      chainRevokeExec_start hX,
      chainPublicRpcs_skip (hSo SecId.public_rpcs (by simp)) (by simp),
      chainIndexes_skip (hSo SecId.indexes (by simp)) (by simp),
      chainOwner_skip (ownStart_not (hSo SecId.owner_changes (by simp))) (by simp)]
  | public_rpcs =>
    unfold stepLine
    rw [chainRole_skip (hSo SecId.role_creation (by simp)) (by simp [hc]),
      chainRC_skip hrc,
      chainRevokeExec_skip (hSo SecId.revoke_execute (by simp)) (by simp [hc]),
      chainPublicRpcs_start hX,
      chainIndexes_skip (hSo SecId.indexes (by simp)) (by simp),
      chainOwner_skip (ownStart_not (hSo SecId.owner_changes (by simp))) (by simp)]
  | indexes =>
    unfold stepLine
    rw [chainRole_skip (hSo SecId.role_creation (by simp)) (by simp [hc]),
      chainRC_skip hrc,
      chainRevokeExec_skip (hSo SecId.revoke_execute (by simp)) (by simp [hc]),
      chainPublicRpcs_skip (hSo SecId.public_rpcs (by simp)) (by simp [hc]),
      chainIndexes_start hX,
      chainOwner_skip (ownStart_not (hSo SecId.owner_changes (by simp))) (by simp)]
  | owner_changes =>
    have hAB : containsSub m_own_start l = true ∧
        containsSub m_own_owner_to l = true := by
      have := hX
      simp only [lineStarts, Bool.and_eq_true] at this
      exact this
    unfold stepLine
    rw [chainRole_skip (hSo SecId.role_creation (by simp)) (by simp [hc]),
      chainRC_skip hrc,
      chainRevokeExec_skip (hSo SecId.revoke_execute (by simp)) (by simp [hc]),
      chainPublicRpcs_skip (hSo SecId.public_rpcs (by simp)) (by simp [hc]),
      chainIndexes_skip (hSo SecId.indexes (by simp)) (by simp [hc]),
      chainOwner_start hAB.1 hAB.2]

/-- A well-formed end line for `X`, reached while `X` is open, commits
the buffered lines together with the end line and closes the section. -/
lemma stepLine_end {st : ExtractState} {l : Str} (X : SecId)
    (h : endLineOk X l = true) (hc : st.current_section = some X) :
    stepLine st l =
      { st with secs := setSec X (joinNl (st.buffer ++ [l])) st.secs,
                current_section := none, buffer := [] } := by
  obtain ⟨hX, hrc, hSo, _⟩ := endLineOk_spec h
  cases X with
  | role_creation =>
    have hAlt : containsSub m_role_alter l = true :=
      containsSub_trans (by decide) hX
    unfold stepLine
    rw [chainRole_finalize (hSo SecId.role_creation) hAlt hX hc,
      chainRC_skip hrc,
      chainRevokeExec_skip (hSo SecId.revoke_execute) (by simp),
      chainPublicRpcs_skip (hSo SecId.public_rpcs) (by simp),
      chainIndexes_skip (hSo SecId.indexes) (by simp),
      chainOwner_skip (ownStart_not (hSo SecId.owner_changes)) (by simp)]
    rfl
  | revoke_execute =>
    unfold stepLine
    rw [chainRole_skip (hSo SecId.role_creation) (by simp [hc]),
      chainRC_skip hrc,
      chainRevokeExec_finalize (hSo SecId.revoke_execute) hX hc,
      chainPublicRpcs_skip (hSo SecId.public_rpcs) (by simp),
      chainIndexes_skip (hSo SecId.indexes) (by simp),
      chainOwner_skip (ownStart_not (hSo SecId.owner_changes)) (by simp)]
    rfl
  | public_rpcs =>
    unfold stepLine
    rw [chainRole_skip (hSo SecId.role_creation) (by simp [hc]),
      chainRC_skip hrc,
      chainRevokeExec_skip (hSo SecId.revoke_execute) (by simp [hc]),
      chainPublicRpcs_finalize (hSo SecId.public_rpcs) hX hc,
      chainIndexes_skip (hSo SecId.indexes) (by simp),
      chainOwner_skip (ownStart_not (hSo SecId.owner_changes)) (by simp)]
    rfl
  | indexes =>
    unfold stepLine
    rw [chainRole_skip (hSo SecId.role_creation) (by simp [hc]),
      chainRC_skip hrc,
      chainRevokeExec_skip (hSo SecId.revoke_execute) (by simp [hc]),
      chainPublicRpcs_skip (hSo SecId.public_rpcs) (by simp [hc]),
      chainIndexes_finalize (hSo SecId.indexes) hX hc,
      chainOwner_skip (ownStart_not (hSo SecId.owner_changes)) (by simp)]
    rfl
  | owner_changes =>
    unfold stepLine
    rw [chainRole_skip (hSo SecId.role_creation) (by simp [hc]),
      chainRC_skip hrc,
      chainRevokeExec_skip (hSo SecId.revoke_execute) (by simp [hc]),
      chainPublicRpcs_skip (hSo SecId.public_rpcs) (by simp [hc]),
      chainIndexes_skip (hSo SecId.indexes) (by simp [hc]),
      chainOwner_finalize (ownStart_not (hSo SecId.owner_changes)) hX hc]
    rfl

/-- A well-formed `revoke_create` line with no open section stores that
line. -/
lemma stepLine_rc_set {st : ExtractState} {l : Str}
    (h : rcLineOk l = true) (hc : st.current_section = none) :
    stepLine st l = { st with secs := { st.secs with revoke_create := l } } := by
  obtain ⟨hrc, hSo, _⟩ := rcLineOk_spec h
  unfold stepLine
  rw [chainRole_skip (hSo SecId.role_creation) (by simp [hc]),
    chainRC_set hrc,
    chainRevokeExec_skip (hSo SecId.revoke_execute) (by simp [hc]),
    chainPublicRpcs_skip (hSo SecId.public_rpcs) (by simp [hc]),
    chainIndexes_skip (hSo SecId.indexes) (by simp [hc]),
    chainOwner_skip (ownStart_not (hSo SecId.owner_changes)) (by simp [hc])]

/-- Folding over marker-free lines with no open section is a no-op. -/
lemma foldl_inert_none {L : List Str} {st : ExtractState}
    (hL : ∀ l ∈ L, inertLine l = true) (hc : st.current_section = none) :
    List.foldl stepLine st L = st := by
  induction L with
  | nil => rfl
  | cons l L ih =>
    rw [List.foldl_cons, stepLine_inert_none (hL l (by simp)) hc]
    exact ih (fun l' hm => hL l' (by simp [hm]))

/-- Folding over marker-free lines while `X` is open appends them all to
the buffer. -/
lemma foldl_inert_some {X : SecId} {L : List Str} : ∀ st : ExtractState,
    (∀ l ∈ L, inertLine l = true) → st.current_section = some X →
    List.foldl stepLine st L = { st with buffer := st.buffer ++ L } := by
  induction L with
  | nil => intro st _ _; simp
  | cons l L ih =>
    intro st hL hc
    rw [List.foldl_cons, stepLine_inert_some X (hL l (by simp)) hc,
      ih _ (fun l' hm => hL l' (by simp [hm])) (by simp [hc])]
    simp

/-!
## Claim C3: well-formed sections are extracted verbatim
-/

/-- Claim C3: for each of the six named sections, an overlay whose
stripped lines consist of marker-free lines, a well-formed start line,
marker-free middle lines, a well-formed end line (for the five ranged
sections), and marker-free trailing lines is extracted to exactly the
text from the start line through the end line inclusive, lines preserved
verbatim in order; the single-line `revoke_create` section is the marker
line itself. -/
theorem claim_C3_extraction :
    (∀ (X : SecId) (ov : Str) (pre mid post : List Str) (s e : Str),
      splitNl (replaceAll m_commit [] (replaceAll m_begin [] ov)) =
        pre ++ s :: (mid ++ e :: post) →
      (∀ l ∈ pre, inertLine l = true) →
      (∀ l ∈ mid, inertLine l = true) →
      (∀ l ∈ post, inertLine l = true) →
      startLineOk X s = true →
      endLineOk X e = true →
      secField X (extract_security_additions ov) = joinNl (s :: (mid ++ [e]))) ∧
    (∀ (ov : Str) (pre post : List Str) (s : Str),
      splitNl (replaceAll m_commit [] (replaceAll m_begin [] ov)) =
        pre ++ s :: post →
      (∀ l ∈ pre, inertLine l = true) →
      (∀ l ∈ post, inertLine l = true) →
      rcLineOk s = true →
      (extract_security_additions ov).revoke_create = s) := by
  constructor
  · intro X ov pre mid post s e hsplit hpre hmid hpost hs he
    unfold extract_security_additions extractLines
    rw [hsplit, List.foldl_append, foldl_inert_none hpre rfl, List.foldl_cons,
      stepLine_start X hs rfl, List.foldl_append,
      foldl_inert_some _ hmid rfl, List.foldl_cons]
    rw [stepLine_end X he rfl]
    rw [foldl_inert_none hpost rfl]
    show secField X (setSec X (joinNl (([s] ++ mid) ++ [e])) initState.secs) = _
    cases X <;> simp [setSec, secField]
  · intro ov pre post s hsplit hpre hpost hs
    unfold extract_security_additions extractLines
    rw [hsplit, List.foldl_append, foldl_inert_none hpre rfl, List.foldl_cons,
      stepLine_rc_set hs rfl, foldl_inert_none hpost rfl]

/-- Witness for C3: the `role_creation` ranged section and the
single-line `revoke_create` section extracted from concrete overlays. -/
theorem claim_C3_extraction_witness :
    (startLineOk SecId.role_creation c3_role_s = true ∧
      endLineOk SecId.role_creation
        (("ALTER ROLE app_definer WITH BYPASSRLS;").data) = true ∧
      secField SecId.role_creation (extract_security_additions c3_role_ov) =
        joinNl (c3_role_s ::
          ([("mid line").data] ++ [("ALTER ROLE app_definer WITH BYPASSRLS;").data]))) ∧
    (extract_security_additions c3_rc_ov).revoke_create =
      ("REVOKE CREATE ON SCHEMA public FROM PUBLIC;").data :=
  ⟨⟨by decide, by decide,
    claim_C3_extraction.1 SecId.role_creation c3_role_ov
      [("x").data] [("mid line").data] [("tail").data]
      c3_role_s (("ALTER ROLE app_definer WITH BYPASSRLS;").data)
      (by decide) (by decide) (by decide) (by decide) (by decide) (by decide)⟩,
   claim_C3_extraction.2 c3_rc_ov [("x").data] [("tail").data]
     (("REVOKE CREATE ON SCHEMA public FROM PUBLIC;").data)
     (by decide) (by decide) (by decide) (by decide)⟩

/-!
## Lemmas about the blank-line collapsing pass
-/

lemma nlFree_cons {c : Char} {cs : Str} (h : nlFree (c :: cs) = true) :
    ¬(c = '\n') ∧ nlFree cs = true := by
  simp only [nlFree, List.all_cons, Bool.and_eq_true, Bool.not_eq_true',
    decide_eq_false_iff_not] at h
  exact ⟨h.1, by simpa [nlFree] using h.2⟩

lemma collapseAux_chunk {c0 : Str} (h : nlFree c0 = true) (t : Str) :
    collapseAux (c0 ++ t) 0 = c0 ++ collapseAux t 0 := by
  induction c0 with
  | nil => rfl
  | cons c cs ih =>
    obtain ⟨hc, hcs⟩ := nlFree_cons h
    simp only [List.cons_append, collapseAux, if_neg hc, flushNl, List.append_eq]
    rw [ih hcs]
    simp

lemma collapseAux_replicate (m : Nat) (t : Str) (n : Nat) :
    collapseAux (List.replicate m '\n' ++ t) n = collapseAux t (n + m) := by
  induction m generalizing n with
  | zero => simp
  | succ m ih =>
    simp only [List.replicate_succ, List.cons_append, collapseAux,
      List.append_eq, eq_self_iff_true, if_true]
    rw [ih (n + 1)]
    congr 1
    omega

lemma collapseAux_flush {s : Str}
    (h : s = [] ∨ ∃ c t, s = c :: t ∧ ¬(c = '\n')) (n : Nat) :
    collapseAux s n = flushNl n ++ collapseAux s 0 := by
  rcases h with rfl | ⟨c, t, rfl, hc⟩
  · simp [collapseAux, flushNl]
  · simp only [collapseAux, if_neg hc, flushNl]
    simp

lemma goodRuns_head {q : Nat × Str} {ps : List (Nat × Str)}
    (h : goodRuns (q :: ps) = true) :
    1 ≤ q.1 ∧ nlFree q.2 = true ∧ (ps ≠ [] → q.2 ≠ []) ∧ goodRuns ps = true := by
  cases ps with
  | nil =>
    rcases q with ⟨n, c⟩
    simp only [goodRuns, Bool.and_eq_true, decide_eq_true_eq] at h
    exact ⟨h.1, h.2, by simp, rfl⟩
  | cons r rest =>
    rcases q with ⟨n, c⟩
    simp only [goodRuns, Bool.and_eq_true, decide_eq_true_eq] at h
    exact ⟨h.1.1.1, h.1.1.2, fun _ => h.1.2, h.2⟩

lemma runsJoin_head {c : Str} {ps : List (Nat × Str)}
    (hcf : nlFree c = true) (hc : ps ≠ [] → c ≠ []) :
    runsJoin c ps = [] ∨
      ∃ ch t, runsJoin c ps = ch :: t ∧ ¬(ch = '\n') := by
  cases ps with
  | nil =>
    cases c with
    | nil => exact Or.inl rfl
    | cons ch t =>
      obtain ⟨h1, _⟩ := nlFree_cons hcf
      exact Or.inr ⟨ch, t, rfl, h1⟩
  | cons q rest =>
    have : c ≠ [] := hc (by simp)
    cases c with
    | nil => exact absurd rfl this
    | cons ch t =>
      obtain ⟨h1, _⟩ := nlFree_cons hcf
      exact Or.inr ⟨ch, t ++ List.replicate q.1 '\n' ++ runsJoin q.2 rest, by
        simp [runsJoin], h1⟩

lemma min_three_cases (n : Nat) :
    min n 3 = 0 ∨ min n 3 = 1 ∨ min n 3 = 2 ∨ min n 3 = 3 := by omega

lemma collapseAux_no_nl4 : ∀ (s : Str) (n : Nat),
    containsSub nl4 (collapseAux s n) = false := by
  intro s
  induction s with
  | nil =>
    intro n
    show containsSub nl4 (flushNl n) = false
    rcases min_three_cases n with h | h | h | h <;>
      (rw [flushNl, h]; decide)
  | cons c t ih =>
    intro n
    by_cases hc : c = '\n'
    · subst hc
      simp only [collapseAux, if_pos rfl]
      exact ih (n + 1)
    · have hc' : ¬('\n' = c) := fun h => hc h.symm
      simp only [collapseAux, if_neg hc]
      have hrec := ih 0
      rcases min_three_cases n with h | h | h | h <;>
        (rw [flushNl, h]
         simp [containsSub, leadsWith, nl4, hc', hrec]
         try exact ih 0)

/-!
## Claim C5: blank-line runs in the final output
-/

/-- Claim C5: the written output never holds four consecutive newline
characters, and the collapsing pass maps each maximal run of `n`
newlines to `min n 3` newlines — runs of four or more become exactly
three, runs of three or fewer are unchanged. -/
theorem claim_C5_newline_collapse :
    (∀ base overlay : Str,
      containsSub nl4 (mergeMain base overlay) = false) ∧
    (∀ (c0 : Str) (ps : List (Nat × Str)),
      nlFree c0 = true → goodRuns ps = true →
      collapseNl (runsJoin c0 ps) =
        runsJoin c0 (ps.map (fun p => (min p.1 3, p.2)))) := by
  constructor
  · intro base overlay
    exact collapseAux_no_nl4 _ 0
  · intro c0 ps
    induction ps generalizing c0 with
    | nil =>
      intro hc0 _
      show collapseNl c0 = c0
      have := collapseAux_chunk hc0 []
      simpa [collapseNl, collapseAux, flushNl] using this
    | cons q rest ih =>
      intro hc0 hg
      obtain ⟨hn, hqf, hqe, hgr⟩ := goodRuns_head hg
      rcases q with ⟨n, c⟩
      show collapseAux (c0 ++ List.replicate n '\n' ++ runsJoin c rest) 0 = _
      rw [List.append_assoc, collapseAux_chunk hc0, collapseAux_replicate]
      rw [collapseAux_flush (runsJoin_head hqf hqe)]
      have := ih c hqf hgr
      rw [show collapseAux (runsJoin c rest) 0 = collapseNl (runsJoin c rest) from rfl,
        this]
      simp [runsJoin, flushNl]

/-- Witness for C5: a concrete decomposition with one long and one short
run, and a concrete end-to-end output check. -/
theorem claim_C5_newline_collapse_witness :
    (nlFree (("ab").data) = true ∧
      goodRuns [(5, ("cd").data), (2, [])] = true ∧
      collapseNl (runsJoin (("ab").data) [(5, ("cd").data), (2, [])]) =
        runsJoin (("ab").data)
          ([(5, ("cd").data), (2, [])].map (fun p => (min p.1 3, p.2)))) ∧
    collapseNl (("ab\n\n\n\n\ncd\n\n").data) = ("ab\n\n\ncd\n\n").data :=
  ⟨⟨by decide, by decide,
    claim_C5_newline_collapse.2 (("ab").data) [(5, ("cd").data), (2, [])]
      (by decide) (by decide)⟩,
   by decide⟩

/-!
## Claim C8: the fixed segment order of the assembled document
-/

lemma pyFind_eq {s pat : Str} {n : Nat} (h : findIdx pat s = some n) :
    pyFind s pat = (n : Int) := by
  simp [pyFind, h]

lemma pyIdx_ofNat {len n : Nat} (h : n ≤ len) : pyIdx len (n : Int) = n := by
  simp only [pyIdx]
  rw [if_neg (by omega)]
  simp
  omega

lemma pySliceTo_nat {s pat : Str} {n : Nat} (h : findIdx pat s = some n) :
    pySliceTo s (pyFind s pat) = s.take n := by
  rw [pyFind_eq h, pySliceTo, pyIdx_ofNat (findIdx_le_length h)]

lemma pySliceFrom_nat {s pat : Str} {n : Nat} (h : findIdx pat s = some n) :
    pySliceFrom s (pyFind s pat) = s.drop n := by
  rw [pyFind_eq h, pySliceFrom, pyIdx_ofNat (findIdx_le_length h)]

lemma pySlice_nat {s pat1 pat2 : Str} {a b : Nat}
    (ha : findIdx pat1 s = some a) (hb : findIdx pat2 s = some b) :
    pySlice s (pyFind s pat1) (pyFind s pat2) = (s.take b).drop a := by
  rw [pyFind_eq ha, pyFind_eq hb, pySlice,
    pyIdx_ofNat (findIdx_le_length ha), pyIdx_ofNat (findIdx_le_length hb)]

/-- Claim C8: when all four anchors occur in the filtered base text, the
draft output is the fixed-order concatenation of base slices, headers,
the six sections in the order revoke_create, role_creation,
revoke_execute, public_rpcs, indexes, owner_changes, the (possibly
corrected) grant slice, the six-grant block, and the nine additional
ownership statements inserted before the `RESET ALL;` suffix; the
written output is its blank-line collapse. -/
theorem claim_C8_assembly (s : Str) (secs : SecMap) (a b c d : Nat)
    (ha : findIdx m_create_type s = some a)
    (hb : findIdx m_grant_usage s = some b)
    (hc : findIdx m_alter_default s = some c)
    (hd : findIdx m_reset (s.drop c) = some d) :
    mergeDraft s secs =
      s.take a ++
      hdr_hardening ++ secs.revoke_create ++ nl2 ++ secs.role_creation ++ nl2 ++
      ((s.take b).drop a) ++
      hdr_revoke ++ secs.revoke_execute ++ nl2 ++ secs.public_rpcs ++ nl2 ++
      hdr_indexes ++ secs.indexes ++ nl2 ++
      replaceAll grant_old grant_new ((s.take c).drop b) ++
      rpc_grants ++ nl1 ++
      ((s.drop c).take d) ++
      hdr_owner ++ secs.owner_changes ++ additional_owners ++ nl2 ++
      ((s.drop c).drop d) ∧
    mergeAssemble s secs =
      collapseNl
        (s.take a ++
        hdr_hardening ++ secs.revoke_create ++ nl2 ++ secs.role_creation ++ nl2 ++
        ((s.take b).drop a) ++
        hdr_revoke ++ secs.revoke_execute ++ nl2 ++ secs.public_rpcs ++ nl2 ++
        hdr_indexes ++ secs.indexes ++ nl2 ++
        replaceAll grant_old grant_new ((s.take c).drop b) ++
        rpc_grants ++ nl1 ++
        ((s.drop c).take d) ++
        hdr_owner ++ secs.owner_changes ++ additional_owners ++ nl2 ++
        ((s.drop c).drop d)) := by
  have hdraft : mergeDraft s secs = _ := mergeDraft_eq s secs
  rw [pySliceTo_nat ha, pySlice_nat ha hb, pySlice_nat hb hc,
    pySliceFrom_nat hc, pySliceTo_nat hd, pySliceFrom_nat hd] at hdraft
  exact ⟨hdraft, by rw [mergeAssemble, hdraft]⟩

/-- Witness for C8 at a concrete base text and the concrete overlay
sections. -/
theorem claim_C8_assembly_witness :
    (findIdx m_create_type c8_base = some 4 ∧
      findIdx m_grant_usage c8_base = some 53 ∧
      findIdx m_alter_default c8_base = some 103 ∧
      findIdx m_reset (c8_base.drop 103) = some 32) ∧
    mergeDraft c8_base (extract_security_additions doc_overlay) =
      c8_base.take 4 ++
      hdr_hardening ++ (extract_security_additions doc_overlay).revoke_create ++
      nl2 ++ (extract_security_additions doc_overlay).role_creation ++ nl2 ++
      ((c8_base.take 53).drop 4) ++
      hdr_revoke ++ (extract_security_additions doc_overlay).revoke_execute ++
      nl2 ++ (extract_security_additions doc_overlay).public_rpcs ++ nl2 ++
      hdr_indexes ++ (extract_security_additions doc_overlay).indexes ++ nl2 ++
      replaceAll grant_old grant_new ((c8_base.take 103).drop 53) ++
      rpc_grants ++ nl1 ++
      ((c8_base.drop 103).take 32) ++
      hdr_owner ++ (extract_security_additions doc_overlay).owner_changes ++
      additional_owners ++ nl2 ++
      ((c8_base.drop 103).drop 32) :=
  ⟨⟨by decide, by decide, by decide, by decide⟩,
   (claim_C8_assembly c8_base (extract_security_additions doc_overlay)
     4 53 103 32 (by decide) (by decide) (by decide) (by decide)).1⟩

/-!
## Claim C9: `BEGIN;`/`COMMIT;` stripping and the extracted sections
-/

lemma leads_before_nl : ∀ (pat : Str), nlFree pat = true →
    ∀ (a b : Str), leadsWith pat (a ++ '\n' :: b) = true →
    leadsWith pat a = true := by
  intro pat
  induction pat with
  | nil => intro _ a _ _; cases a <;> rfl
  | cons p ps ih =>
    intro hpat a b h
    obtain ⟨hp, hps⟩ := nlFree_cons hpat
    cases a with
    | nil =>
      simp only [List.nil_append, leadsWith, Bool.and_eq_true,
        decide_eq_true_eq] at h
      exact absurd h.1 hp
    | cons x a' =>
      simp only [List.cons_append, leadsWith, Bool.and_eq_true,
        decide_eq_true_eq] at h ⊢
      exact ⟨h.1, ih hps a' b h.2⟩

lemma contains_append_nl {pat : Str} (hne : pat ≠ [])
    (hpat : nlFree pat = true) :
    ∀ (a b : Str), containsSub pat (a ++ '\n' :: b) = true →
    containsSub pat a = true ∨ containsSub pat b = true := by
  intro a
  induction a with
  | nil =>
    intro b h
    simp only [List.nil_append, containsSub, Bool.or_eq_true] at h
    rcases h with h | h
    · have hl := leads_before_nl pat hpat [] b h
      cases pat with
      | nil => exact absurd rfl hne
      | cons p ps => simp [leadsWith] at hl
    · exact Or.inr h
  | cons x a' ih =>
    intro b h
    simp only [List.cons_append, containsSub, Bool.or_eq_true] at h
    rcases h with h | h
    · exact Or.inl (containsSub_of_leadsWith (leads_before_nl pat hpat (x :: a') b h))
    · rcases ih b h with h' | h'
      · exact Or.inl (by simp [containsSub, h'])
      · exact Or.inr h'

lemma contains_joinNl {pat : Str} (hne : pat ≠ [])
    (hpat : nlFree pat = true) :
    ∀ (ls : List Str), containsSub pat (joinNl ls) = true →
    ∃ l ∈ ls, containsSub pat l = true := by
  intro ls
  induction ls with
  | nil =>
    intro h
    simp only [joinNl, containsSub] at h
    cases pat with
    | nil => exact absurd rfl hne
    | cons p ps => simp [leadsWith] at h
  | cons l ls ih =>
    cases ls with
    | nil =>
      intro h
      exact ⟨l, by simp, by simpa [joinNl] using h⟩
    | cons l2 ls2 =>
      intro h
      rw [joinNl_cons_cons] at h
      rcases contains_append_nl hne hpat l (joinNl (l2 :: ls2)) h with h | h
      · exact ⟨l, by simp, h⟩
      · rcases ih h with ⟨x, hx, hc⟩
        exact ⟨x, by simp [hx], hc⟩

lemma contains_of_mem_joinNl {pat : Str} {ls : List Str} {l : Str}
    (hx : l ∈ ls) (hc : containsSub pat l = true) :
    containsSub pat (joinNl ls) = true := by
  induction ls with
  | nil => simp at hx
  | cons a t ih =>
    rcases List.mem_cons.mp hx with rfl | hx'
    · cases t with
      | nil => simpa [joinNl] using hc
      | cons b t' =>
        rw [joinNl_cons_cons]
        exact containsSub_append_left _ hc
    · cases t with
      | nil => simp at hx'
      | cons b t' =>
        rw [joinNl_cons_cons]
        exact containsSub_append_right a
          (containsSub_append_right ['\n'] (ih hx'))

lemma write_ok {pat : Str} {ls : List Str} (hne : pat ≠ [])
    (hpat : nlFree pat = true)
    (hls : ∀ x ∈ ls, containsSub pat x = false)
    {buf : List Str} (hbuf : ∀ x ∈ buf, x ∈ ls) :
    containsSub pat (joinNl buf) = false := by
  cases hcon : containsSub pat (joinNl buf)
  · rfl
  · exfalso
    rcases contains_joinNl hne hpat buf hcon with ⟨x, hx, hcx⟩
    rw [hls x (hbuf x hx)] at hcx
    exact Bool.noConfusion hcx

lemma chainRole_noPat {pat : Str} {ls : List Str}
    (hne : pat ≠ []) (hpat : nlFree pat = true)
    (hls : ∀ x ∈ ls, containsSub pat x = false)
    {st : ExtractState} {l : Str} (hl : l ∈ ls)
    (h : noPatInv pat ls st) : noPatInv pat ls (chainRole st l) := by
  obtain ⟨f1, f2, f3, f4, f5, f6, hb⟩ := h
  have hbufSingle : ∀ x ∈ [l], x ∈ ls := by
    intro x hx
    simp only [List.mem_singleton] at hx
    subst hx
    exact hl
  have hbufApp : ∀ x ∈ st.buffer ++ [l], x ∈ ls := by
    intro x hx
    rcases List.mem_append.mp hx with hx | hx
    · exact hb x hx
    · simp only [List.mem_singleton] at hx
      subst hx
      exact hl
  have hwrite : containsSub pat (joinNl (st.buffer ++ [l])) = false :=
    write_ok hne hpat hls hbufApp
  have hempty : ∀ x ∈ ([] : List Str), x ∈ ls := by simp
  unfold chainRole noPatInv
  split_ifs
  all_goals
    first
      | exact ⟨f1, f2, f3, f4, f5, f6, hb⟩
      | exact ⟨f1, f2, f3, f4, f5, f6, hbufSingle⟩
      | exact ⟨f1, f2, f3, f4, f5, f6, hbufApp⟩
      | exact ⟨hwrite, f2, f3, f4, f5, f6, hempty⟩

lemma chainRevokeCreate_noPat {pat : Str} {ls : List Str}
    (hne : pat ≠ []) (hpat : nlFree pat = true)
    (hls : ∀ x ∈ ls, containsSub pat x = false)
    {st : ExtractState} {l : Str} (hl : l ∈ ls)
    (h : noPatInv pat ls st) : noPatInv pat ls (chainRevokeCreate st l) := by
  obtain ⟨f1, f2, f3, f4, f5, f6, hb⟩ := h
  have hbufSingle : ∀ x ∈ [l], x ∈ ls := by
    intro x hx
    simp only [List.mem_singleton] at hx
    subst hx
    exact hl
  have hbufApp : ∀ x ∈ st.buffer ++ [l], x ∈ ls := by
    intro x hx
    rcases List.mem_append.mp hx with hx | hx
    · exact hb x hx
    · simp only [List.mem_singleton] at hx
      subst hx
      exact hl
  have hwrite : containsSub pat (joinNl (st.buffer ++ [l])) = false :=
    write_ok hne hpat hls hbufApp
  have hempty : ∀ x ∈ ([] : List Str), x ∈ ls := by simp
  unfold chainRevokeCreate noPatInv
  split_ifs
  all_goals
    first
      | exact ⟨f1, f2, f3, f4, f5, f6, hb⟩
      | exact ⟨f1, f2, f3, f4, f5, f6, hbufSingle⟩
      | exact ⟨f1, f2, f3, f4, f5, f6, hbufApp⟩
      | exact ⟨f1, (hls l hl), f3, f4, f5, f6, hb⟩

lemma chainRevokeExec_noPat {pat : Str} {ls : List Str}
    (hne : pat ≠ []) (hpat : nlFree pat = true)
    (hls : ∀ x ∈ ls, containsSub pat x = false)
    {st : ExtractState} {l : Str} (hl : l ∈ ls)
    (h : noPatInv pat ls st) : noPatInv pat ls (chainRevokeExec st l) := by
  obtain ⟨f1, f2, f3, f4, f5, f6, hb⟩ := h
  have hbufSingle : ∀ x ∈ [l], x ∈ ls := by
    intro x hx
    simp only [List.mem_singleton] at hx
    subst hx
    exact hl
  have hbufApp : ∀ x ∈ st.buffer ++ [l], x ∈ ls := by
    intro x hx
    rcases List.mem_append.mp hx with hx | hx
    · exact hb x hx
    · simp only [List.mem_singleton] at hx
      subst hx
      exact hl
  have hwrite : containsSub pat (joinNl (st.buffer ++ [l])) = false :=
    write_ok hne hpat hls hbufApp
  have hempty : ∀ x ∈ ([] : List Str), x ∈ ls := by simp
  unfold chainRevokeExec noPatInv
  split_ifs
  all_goals
    first
      | exact ⟨f1, f2, f3, f4, f5, f6, hb⟩
      | exact ⟨f1, f2, f3, f4, f5, f6, hbufSingle⟩
      | exact ⟨f1, f2, f3, f4, f5, f6, hbufApp⟩
      | exact ⟨f1, f2, f3, f4, f5, hwrite, hempty⟩

lemma chainPublicRpcs_noPat {pat : Str} {ls : List Str}
    (hne : pat ≠ []) (hpat : nlFree pat = true)
    (hls : ∀ x ∈ ls, containsSub pat x = false)
    {st : ExtractState} {l : Str} (hl : l ∈ ls)
    (h : noPatInv pat ls st) : noPatInv pat ls (chainPublicRpcs st l) := by
  obtain ⟨f1, f2, f3, f4, f5, f6, hb⟩ := h
  have hbufSingle : ∀ x ∈ [l], x ∈ ls := by
    intro x hx
    simp only [List.mem_singleton] at hx
    subst hx
    exact hl
  have hbufApp : ∀ x ∈ st.buffer ++ [l], x ∈ ls := by
    intro x hx
    rcases List.mem_append.mp hx with hx | hx
    · exact hb x hx
    · simp only [List.mem_singleton] at hx
      subst hx
      exact hl
  have hwrite : containsSub pat (joinNl (st.buffer ++ [l])) = false :=
    write_ok hne hpat hls hbufApp
  have hempty : ∀ x ∈ ([] : List Str), x ∈ ls := by simp
  unfold chainPublicRpcs noPatInv
  split_ifs
  all_goals
    first
      | exact ⟨f1, f2, f3, f4, f5, f6, hb⟩
      | exact ⟨f1, f2, f3, f4, f5, f6, hbufSingle⟩
      | exact ⟨f1, f2, f3, f4, f5, f6, hbufApp⟩
      | exact ⟨f1, f2, hwrite, f4, f5, f6, hempty⟩

lemma chainIndexes_noPat {pat : Str} {ls : List Str}
    (hne : pat ≠ []) (hpat : nlFree pat = true)
    (hls : ∀ x ∈ ls, containsSub pat x = false)
    {st : ExtractState} {l : Str} (hl : l ∈ ls)
    (h : noPatInv pat ls st) : noPatInv pat ls (chainIndexes st l) := by
  obtain ⟨f1, f2, f3, f4, f5, f6, hb⟩ := h
  have hbufSingle : ∀ x ∈ [l], x ∈ ls := by
    intro x hx
    simp only [List.mem_singleton] at hx
    subst hx
    exact hl
  have hbufApp : ∀ x ∈ st.buffer ++ [l], x ∈ ls := by
    intro x hx
    rcases List.mem_append.mp hx with hx | hx
    · exact hb x hx
    · simp only [List.mem_singleton] at hx
      subst hx
      exact hl
  have hwrite : containsSub pat (joinNl (st.buffer ++ [l])) = false :=
    write_ok hne hpat hls hbufApp
  have hempty : ∀ x ∈ ([] : List Str), x ∈ ls := by simp
  unfold chainIndexes noPatInv
  split_ifs
  all_goals
    first
      | exact ⟨f1, f2, f3, f4, f5, f6, hb⟩
      | exact ⟨f1, f2, f3, f4, f5, f6, hbufSingle⟩
      | exact ⟨f1, f2, f3, f4, f5, f6, hbufApp⟩
      | exact ⟨f1, f2, f3, hwrite, f5, f6, hempty⟩

lemma chainOwner_noPat {pat : Str} {ls : List Str}
    (hne : pat ≠ []) (hpat : nlFree pat = true)
    (hls : ∀ x ∈ ls, containsSub pat x = false)
    {st : ExtractState} {l : Str} (hl : l ∈ ls)
    (h : noPatInv pat ls st) : noPatInv pat ls (chainOwner st l) := by
  obtain ⟨f1, f2, f3, f4, f5, f6, hb⟩ := h
  have hbufSingle : ∀ x ∈ [l], x ∈ ls := by
    intro x hx
    simp only [List.mem_singleton] at hx
    subst hx
    exact hl
  have hbufApp : ∀ x ∈ st.buffer ++ [l], x ∈ ls := by
    intro x hx
    rcases List.mem_append.mp hx with hx | hx
    · exact hb x hx
    · simp only [List.mem_singleton] at hx
      subst hx
      exact hl
  have hwrite : containsSub pat (joinNl (st.buffer ++ [l])) = false :=
    write_ok hne hpat hls hbufApp
  have hempty : ∀ x ∈ ([] : List Str), x ∈ ls := by simp
  unfold chainOwner noPatInv
  split_ifs
  all_goals
    first
      | exact ⟨f1, f2, f3, f4, f5, f6, hb⟩
      | exact ⟨f1, f2, f3, f4, f5, f6, hbufSingle⟩
      | exact ⟨f1, f2, f3, f4, f5, f6, hbufApp⟩
      | exact ⟨f1, f2, f3, f4, hwrite, f6, hempty⟩

lemma stepLine_noPat {pat : Str} {ls : List Str}
    (hne : pat ≠ []) (hpat : nlFree pat = true)
    (hls : ∀ x ∈ ls, containsSub pat x = false)
    {st : ExtractState} {l : Str} (hl : l ∈ ls)
    (h : noPatInv pat ls st) : noPatInv pat ls (stepLine st l) := by
  unfold stepLine
  exact chainOwner_noPat hne hpat hls hl
    (chainIndexes_noPat hne hpat hls hl
      (chainPublicRpcs_noPat hne hpat hls hl
        (chainRevokeExec_noPat hne hpat hls hl
          (chainRevokeCreate_noPat hne hpat hls hl
            (chainRole_noPat hne hpat hls hl h)))))

lemma foldl_noPat {pat : Str} {ls : List Str}
    (hne : pat ≠ []) (hpat : nlFree pat = true)
    (hls : ∀ x ∈ ls, containsSub pat x = false) :
    ∀ (L : List Str) (st : ExtractState), (∀ l ∈ L, l ∈ ls) →
    noPatInv pat ls st → noPatInv pat ls (List.foldl stepLine st L) := by
  intro L
  induction L with
  | nil => exact fun st _ h => h
  | cons l L ih =>
    intro st hL h
    rw [List.foldl_cons]
    exact ih _ (fun x hx => hL x (by simp [hx]))
      (stepLine_noPat hne hpat hls (hL l (by simp)) h)

/-- Claim C9, as amended: the extractor first strips `BEGIN;` and then
`COMMIT;` by sequential left-to-right replacement; whenever the stripped
overlay no longer holds either token, none of the six extracted section
texts holds `BEGIN;` or `COMMIT;` as a substring. -/
theorem claim_C9_amended (ov : Str)
    (hB : containsSub m_begin
      (replaceAll m_commit [] (replaceAll m_begin [] ov)) = false)
    (hC : containsSub m_commit
      (replaceAll m_commit [] (replaceAll m_begin [] ov)) = false) :
    (containsSub m_begin (extract_security_additions ov).role_creation = false ∧
      containsSub m_begin (extract_security_additions ov).revoke_create = false ∧
      containsSub m_begin (extract_security_additions ov).public_rpcs = false ∧
      containsSub m_begin (extract_security_additions ov).indexes = false ∧
      containsSub m_begin (extract_security_additions ov).owner_changes = false ∧
      containsSub m_begin (extract_security_additions ov).revoke_execute = false) ∧
    (containsSub m_commit (extract_security_additions ov).role_creation = false ∧
      containsSub m_commit (extract_security_additions ov).revoke_create = false ∧
      containsSub m_commit (extract_security_additions ov).public_rpcs = false ∧
      containsSub m_commit (extract_security_additions ov).indexes = false ∧
      containsSub m_commit (extract_security_additions ov).owner_changes = false ∧
      containsSub m_commit (extract_security_additions ov).revoke_execute = false) := by
  have main : ∀ pat : Str, pat ≠ [] → nlFree pat = true →
      containsSub pat (replaceAll m_commit [] (replaceAll m_begin [] ov)) = false →
      noPatInv pat (splitNl (replaceAll m_commit [] (replaceAll m_begin [] ov)))
        (extractLines (splitNl (replaceAll m_commit [] (replaceAll m_begin [] ov)))) := by
    intro pat hne hpat hstr
    have hls : ∀ x ∈ splitNl (replaceAll m_commit [] (replaceAll m_begin [] ov)),
        containsSub pat x = false := by
      intro x hx
      cases hcx : containsSub pat x
      · rfl
      · exfalso
        have hw : containsSub pat
            (joinNl (splitNl (replaceAll m_commit [] (replaceAll m_begin [] ov)))) = true :=
          contains_of_mem_joinNl hx hcx
        rw [joinNl_splitNl, hstr] at hw
        exact Bool.noConfusion hw
    have hinit : noPatInv pat
        (splitNl (replaceAll m_commit [] (replaceAll m_begin [] ov))) initState := by
      have hpe : containsSub pat [] = false := by
        cases pat with
        | nil => exact absurd rfl hne
        | cons p ps => rfl
      exact ⟨hpe, hpe, hpe, hpe, hpe, hpe, by simp [initState]⟩
    exact foldl_noPat hne hpat hls _ initState (fun l h => h) hinit
  have hBr := main m_begin (by decide) (by decide) hB
  have hCr := main m_commit (by decide) (by decide) hC
  exact ⟨⟨hBr.1, hBr.2.1, hBr.2.2.1, hBr.2.2.2.1, hBr.2.2.2.2.1, hBr.2.2.2.2.2.1⟩,
    ⟨hCr.1, hCr.2.1, hCr.2.2.1, hCr.2.2.2.1, hCr.2.2.2.2.1, hCr.2.2.2.2.2.1⟩⟩

/-- Counterexample theorem for C9: at `c9_overlay` the extracted
`revoke_create` text contains `BEGIN;`. -/
theorem claim_C9_counterexample :
    containsSub m_begin ((extract_security_additions c9_overlay).revoke_create) = true ∧
    (extract_security_additions c9_overlay).revoke_create =
      ("REVOKE CREATE ON SCHEMA public FROM PUBLIC; BEGIN;").data :=
  ⟨by decide, by decide⟩

/-- Witness for the amended C9 at the concrete overlay document. -/
theorem claim_C9_amended_witness :
    (containsSub m_begin
        (replaceAll m_commit [] (replaceAll m_begin [] doc_overlay)) = false ∧
      containsSub m_commit
        (replaceAll m_commit [] (replaceAll m_begin [] doc_overlay)) = false) ∧
    containsSub m_begin (extract_security_additions doc_overlay).role_creation = false ∧
    containsSub m_commit (extract_security_additions doc_overlay).owner_changes = false :=
  ⟨⟨by decide, by decide⟩,
   (claim_C9_amended doc_overlay (by decide) (by decide)).1.1,
   (claim_C9_amended doc_overlay (by decide) (by decide)).2.2.2.2.2.1⟩

/-!
## Claim C1: the end-to-end anon-grant insertion never happens

The grant-section correction searches the *filtered* base text for a
pattern that contains a full `-- Removed:` comment line — but the
comment filter has already deleted every such line, so the pattern can
never occur and the correction is a guaranteed no-op, contradicting the
script's own printed summary (`Added GRANT USAGE ON SCHEMA public TO
anon`).
-/

lemma splitNl_no_nl : ∀ (s : Str), ∀ l ∈ splitNl s, nlFree l = true := by
  intro s
  induction s with
  | nil =>
    intro l hl
    simp only [splitNl, List.mem_singleton] at hl
    subst hl
    rfl
  | cons c rest ih =>
    intro l hl
    rcases hsp : splitNl rest with _ | ⟨l0, ls0⟩
    · exact absurd hsp (splitNl_ne_nil rest)
    simp only [splitNl, hsp] at hl
    by_cases hc : c = '\n'
    · rw [if_pos hc] at hl
      rcases List.mem_cons.mp hl with rfl | hl'
      · rfl
      · exact ih l (by rw [hsp]; exact hl')
    · rw [if_neg hc] at hl
      rcases List.mem_cons.mp hl with rfl | hl'
      · have h0 : nlFree l0 = true := ih l0 (by rw [hsp]; simp)
        simp [nlFree, List.all_cons, hc]
        simpa [nlFree] using h0
      · exact ih l (by rw [hsp]; simp [hl'])

lemma splitNl_append : ∀ (a b : Str),
    splitNl (a ++ '\n' :: b) = splitNl a ++ splitNl b := by
  intro a b
  induction a with
  | nil =>
    show splitNl ('\n' :: b) = [[]] ++ splitNl b
    simp only [splitNl]
    rcases hsp : splitNl b with _ | ⟨l0, ls0⟩
    · exact absurd hsp (splitNl_ne_nil b)
    · simp
  | cons c a' ih =>
    show splitNl (c :: (a' ++ '\n' :: b)) = splitNl (c :: a') ++ splitNl b
    simp only [splitNl, ih]
    rcases hsp : splitNl a' with _ | ⟨l0, ls0⟩
    · exact absurd hsp (splitNl_ne_nil a')
    · by_cases hc : c = '\n' <;> simp [hc]

lemma splitNl_of_nlFree {s : Str} (h : nlFree s = true) : splitNl s = [s] := by
  induction s with
  | nil => rfl
  | cons c cs ih =>
    obtain ⟨hc, hcs⟩ := nlFree_cons h
    simp only [splitNl, ih hcs, if_neg hc]

lemma splitNl_joinNl {ls : List Str} (hne : ls ≠ [])
    (hnl : ∀ x ∈ ls, nlFree x = true) : splitNl (joinNl ls) = ls := by
  induction ls with
  | nil => exact absurd rfl hne
  | cons l t ih =>
    cases t with
    | nil =>
      show splitNl (joinNl [l]) = [l]
      exact splitNl_of_nlFree (hnl l (by simp))
    | cons l2 t2 =>
      rw [joinNl_cons_cons, splitNl_append,
        splitNl_of_nlFree (hnl l (by simp)),
        ih (by simp) (fun x hx => hnl x (by simp [hx]))]
      rfl

/-- The correction pattern can never occur in a filtered base document:
its middle line is a `-- Removed:` comment, and the comment filter drops
every such line. -/
lemma filtered_no_grant_old (base : Str) :
    containsSub grant_old (remove_verbose_comments base) = false := by
  cases hcon : containsSub grant_old (remove_verbose_comments base)
  · rfl
  exfalso
  rcases containsSub_iff.mp hcon with ⟨x, y, hxy⟩
  have hgo : grant_old =
      m_grant_usage ++ '\n' :: (rm_comment_line ++ '\n' :: g2line) := by decide
  have hf : remove_verbose_comments base =
      (x ++ m_grant_usage) ++ '\n' :: (rm_comment_line ++ '\n' :: (g2line ++ y)) := by
    rw [hxy, hgo]
    simp [List.append_assoc]
  have hmem : rm_comment_line ∈ splitNl (remove_verbose_comments base) := by
    rw [hf, splitNl_append, splitNl_append,
      @splitNl_of_nlFree rm_comment_line (by decide)]
    simp
  rw [remove_verbose_comments] at hmem
  rcases hk : keepLoop (splitNl base) with _ | ⟨k0, ks⟩
  · rw [hk] at hmem
    have : rm_comment_line ∈ [([] : Str)] := by
      simpa [joinNl, splitNl] using hmem
    simp only [List.mem_singleton] at this
    exact absurd this (by decide)
  · have hnl : ∀ x ∈ keepLoop (splitNl base), nlFree x = true := by
      intro x hx
      rw [keepLoop_eq_filter] at hx
      exact splitNl_no_nl base x (List.mem_of_mem_filter hx)
    rw [splitNl_joinNl (by rw [hk]; simp) hnl, keepLoop_eq_filter] at hmem
    have hkeep := List.of_mem_filter hmem
    exact absurd hkeep (by decide)

/-- Claim C1 fails on the code: in the §8 end-to-end scenario the merged
output holds no anon schema-usage grant at all — the postgres and
authenticated grants end up adjacent — because the correction pattern
cannot survive the comment filter (first conjunct: for every base
document). -/
theorem claim_C1_anon_grant_missing :
    (∀ base : Str, containsSub grant_old (remove_verbose_comments base) = false) ∧
    containsSub anon_grant (mergeMain doc_base doc_overlay) = false ∧
    containsSub
      (("GRANT USAGE ON SCHEMA \"public\" TO \"postgres\";\nGRANT USAGE ON SCHEMA \"public\" TO \"authenticated\";").data)
      (mergeMain doc_base doc_overlay) = true ∧
    containsSub m_create_type (mergeMain doc_base doc_overlay) = true :=
  ⟨filtered_no_grant_old, by decide, by decide, by decide⟩

